import Mathlib

/-!
Verification of the real-time core of the midish MIDI sequencer.

This file shallowly embeds the data structures and operations of the
following source files and proves properties about them:

* state.c  - the frame tracker (statelist_update, statelist_outdate,
             state_restore) together with the timeout queue (timo_add,
             timo_update) that is appended to the same source file;
* track.c  - the delta-timed event list (seqev_ins, seqev_rm,
             track_numtic);
* pool.h   - the fixed-size object pool (pool_new, pool_del);
* mux.c    - the transport phase machine (mux_timercb, mux_mtctick,
             mux_ticcb, mux_startcb, mux_stopcb, mux_startreq,
             mux_stopreq, mux_sendtic, mux_sendstart, mux_sendstop).

Headers ev.h and mux.h are not part of the source tree; the few items
needed from them (event phases, event matching, the numeric transport
phase constants) are modelled from the specification and marked as such.

C unsigned arithmetic is modelled on Nat with explicit reduction modulo
2^32 (unsigned) or 2^64 (unsigned long) at the points where the C code
can wrap.  Code paths that call panic() are modelled with Except, the
error value standing for the aborted process.
-/

namespace Midish

def M32 : Nat := 2 ^ 32

def M64 : Nat := 2 ^ 64

/-! ## Events (modelled from the spec; ev.h / ev.c are not under src/) -/

/-- Modelled from the spec: the event command tags needed by the claims
(spec section 3).  The full table has about 20 kinds; the subset here
covers every phase signature that `statelist_update` distinguishes:
note-on (FIRST), note-off (LAST), key aftertouch (NEXT), channel
aftertouch (FIRST+NEXT away from the default value, LAST at it),
program change / tempo / timesig (FIRST+LAST) and the end-of-track
marker EV_NULL used by tracks. -/
inductive EvCmd where
  | non
  | noff
  | kat
  | cat
  | pc
  | tempo
  | timesig
  | null
deriving DecidableEq, Repr

/-- Modelled from the spec: struct ev.  A command tag, a device index, a
channel, and up to two value fields (note number / velocity, controller
value, tempo, ...). -/
structure Ev where
  cmd : EvCmd
  dev : Nat := 0
  ch : Nat := 0
  v0 : Nat := 0
  v1 : Nat := 0
deriving DecidableEq, Repr

/-- The phase bit set {FIRST, NEXT, LAST} of ev.h, modelled as three
booleans instead of a C bit mask. -/
structure Phase where
  first : Bool := false
  next : Bool := false
  last : Bool := false
deriving DecidableEq, Repr

def PH_FIRST : Phase := { first := true }

def PH_NEXT : Phase := { next := true }

def PH_LAST : Phase := { last := true }

def PH_FIRST_NEXT : Phase := { first := true, next := true }

def PH_FIRST_LAST : Phase := { first := true, last := true }

/-- The state flag bit set of state.h (STATE_NEW = 1, STATE_CHANGED = 2,
STATE_BOGUS = 4, STATE_NESTED = 8), modelled as four booleans. -/
structure Flags where
  new : Bool := false
  changed : Bool := false
  bogus : Bool := false
  nested : Bool := false
deriving DecidableEq, Repr

def FL_NEW : Flags := { new := true }

/-- Modelled from the spec: EV_ISNOTE from ev.h; the note family is
note-on, note-off and key aftertouch. -/
def EV_ISNOTE (e : Ev) : Bool :=
  e.cmd = EvCmd.non || e.cmd = EvCmd.noff || e.cmd = EvCmd.kat

/-- EV_CAT_DEFAULT of ev.h: the rest value of channel aftertouch is 0
(state_cancel restores channel aftertouch to zero per the spec). -/
def EV_CAT_DEFAULT : Nat := 0

/-- Modelled from the spec: ev_phase from ev.c (spec section 3):
note-on starts a frame (FIRST), continued key aftertouch is NEXT,
note-off is LAST; stateless events like program change, tempo and
time signature are FIRST+LAST; a continuous parameter such as channel
aftertouch is FIRST+NEXT away from its default value and LAST at it.
EV_NULL has no phase; feeding it to statelist_update hits the
switch default which panics. -/
def ev_phase (e : Ev) : Phase :=
  match e.cmd with
  | EvCmd.non => PH_FIRST
  | EvCmd.noff => PH_LAST
  | EvCmd.kat => PH_NEXT
  | EvCmd.cat => if e.v0 ≠ EV_CAT_DEFAULT then PH_FIRST_NEXT else PH_LAST
  | EvCmd.pc => PH_FIRST_LAST
  | EvCmd.tempo => PH_FIRST_LAST
  | EvCmd.timesig => PH_FIRST_LAST
  | EvCmd.null => {}

/-- Modelled from the spec: ev_match from ev.c (spec section 4.4): the
lookup key is the command plus its discriminating fields -- the note
number (and device/channel) for the note family, device/channel for the
other voice events, and the command alone for tempo/timesig.  All three
note commands share one key so that a note-off matches the state opened
by the corresponding note-on. -/
def ev_match (a b : Ev) : Bool :=
  if EV_ISNOTE a && EV_ISNOTE b then
    a.dev = b.dev && a.ch = b.ch && a.v0 = b.v0
  else if a.cmd = b.cmd then
    match a.cmd with
    | EvCmd.cat => a.dev = b.dev && a.ch = b.ch
    | EvCmd.pc => a.dev = b.dev && a.ch = b.ch
    | EvCmd.tempo => true
    | EvCmd.timesig => true
    | _ => false
  else false

/-! ## state.c : states and state lists -/

/-- struct state (state.h): the last event of a frame, the current phase
of that event and the flag bits.  The general purpose fields (tag, tic,
pos, nevents) are ignored by all state.c routines and are omitted. -/
structure State where
  ev : Ev
  phase : Phase
  flags : Flags
deriving DecidableEq, Repr

/-- struct statelist (state.h): the list of states (head first) and the
changed-within-this-tick flag.  The serial field is only used for
profiling and is omitted. -/
structure Statelist where
  states : List State
  changed : Bool
deriving DecidableEq, Repr

/-- state_copyev (state.c): copy an event into a state, record the new
phase and set STATE_CHANGED. -/
def state_copyev (st : State) (ev : Ev) (ph : Phase) : State :=
  { st with ev := ev, phase := ph, flags := { st.flags with changed := true } }

/-- state_match (state.c) reduces to ev_match on the stored event. -/
def state_match (st : State) (ev : Ev) : Bool :=
  ev_match st.ev ev

/-- state_restore (state.c): produce the one event re-establishing the
frame, if any.  Returns ok none where the C returns 0, ok (some e)
where it returns 1 having written e, and error () where it panics
(state_restore refuses note events). -/
def state_restore (st : State) : Except Unit (Option Ev) :=
  if st.flags.bogus then Except.ok none
  else if EV_ISNOTE st.ev then Except.error ()
  else if st.phase.last && !st.phase.first then Except.ok none
  else Except.ok (some st.ev)

/-- The scan loop at the top of statelist_update: walk the list for the
first state matching ev; a match that is terminated (phase exactly
LAST) or bogus is unlinked and freed (state_del) and the scan goes on.
`found pre st post` returns the surviving context with the matched
state (its STATE_NEW bit cleared, as the C does before break);
`fresh cleaned` means the scan fell off the end, with the dropped
matches removed. -/
inductive ScanRes where
  | found (pre : List State) (st : State) (post : List State)
  | fresh (cleaned : List State)
deriving DecidableEq, Repr

def upd_scan (ev : Ev) : List State → ScanRes
  | [] => ScanRes.fresh []
  | st :: rest =>
    if state_match st ev then
      if st.phase ≠ PH_LAST ∧ st.flags.bogus = false then
        ScanRes.found [] { st with flags := { st.flags with new := false } } rest
      else
        upd_scan ev rest
    else
      match upd_scan ev rest with
      | ScanRes.found pre s post => ScanRes.found (st :: pre) s post
      | ScanRes.fresh l => ScanRes.fresh (st :: l)

/-- The scan loop and phase switch of statelist_update (state.c),
returning the list context (pre, st, post) of the state to be written
together with the effective phase; none where the C panics (an event
whose phase is not one of FIRST, NEXT, LAST, FIRST|NEXT, FIRST|LAST
hits the switch default). -/
def statelist_update_step (sl : Statelist) (ev : Ev) :
    Option (List State × State × List State × Phase) :=
  let phase0 := ev_phase ev
  let z : List State × State × List State :=
    match upd_scan ev sl.states with
    | ScanRes.fresh cleaned => ([], { ev := ev, phase := {}, flags := FL_NEW }, cleaned)
    | ScanRes.found pre st post => (pre, st, post)
  let pre := z.1
  let st := z.2.1
  let post := z.2.2
  match phase0 with
  | { first := true, next := false, last := false } =>
    if st.flags ≠ FL_NEW then
      some ([], { ev := ev, phase := {}, flags := { new := true, nested := true } },
        pre ++ st :: post, phase0)
    else
      some (pre, st, post, phase0)
  | { first := false, next := true, last := false }
  | { first := false, next := false, last := true } =>
    if st.flags = FL_NEW then
      some (pre, { st with flags := { st.flags with bogus := true } }, post,
        { phase0 with first := true, next := false })
    else
      some (pre, st, post, phase0)
  | { first := true, next := true, last := false } =>
    some (pre, st, post,
      if st.flags = FL_NEW then { phase0 with next := false }
      else { phase0 with first := false })
  | { first := true, next := false, last := true } =>
    some (pre, st, post, phase0)
  | _ => none

/-- statelist_update (state.c): run the scan and the phase switch,
then copy the event into the chosen state with state_copyev, link it
(a freshly allocated state and a NESTED state stacked on a FIRST
conflict go to the head via statelist_add, a matched state is updated
in place) and set the changed flag of the list.  The returned state is
the one the C function returns. -/
def statelist_update (sl : Statelist) (ev : Ev) : Option (Statelist × State) :=
  match statelist_update_step sl ev with
  | none => none
  | some (pre, st, post, ph) =>
    let st := state_copyev st ev ph
    some ({ states := pre ++ st :: post, changed := true }, st)

/-- statelist_outdate (state.c): if nothing changed return immediately;
otherwise delete every state whose phase is exactly LAST and clear
STATE_CHANGED on the survivors. -/
def statelist_outdate (o : Statelist) : Statelist :=
  if !o.changed then o
  else
    { changed := false,
      states := o.states.filterMap fun i =>
        if i.phase = PH_LAST then none
        else some { i with flags := { i.flags with changed := false } } }

/-- Iterated statelist_update, threading the list and dropping the
returned states; none as soon as one update panics. -/
def statelist_run (sl : Statelist) : List Ev → Option Statelist
  | [] => some sl
  | e :: r =>
    match statelist_update sl e with
    | none => none
    | some (sl', _) => statelist_run sl' r

/-! ## timo (appended to state.c): the timeout queue

All timo arithmetic is on 32-bit unsigned values; additions are reduced
modulo 2^32 and comparisons use the signed value of the 32-bit
difference, exactly as the int cast in the C does. -/

/-- struct timo: the callback/argument pair is abstracted into an
identifier; val is the absolute expiry time, set the scheduled flag. -/
structure Timo where
  id : Nat
  val : Nat
  set : Bool
deriving DecidableEq, Repr

/-- The global timo state: the sorted queue and timo_abstime. -/
structure TimoQ where
  queue : List Timo
  abstime : Nat
deriving DecidableEq, Repr

/-- timo_init (state.c). -/
def timo_init : TimoQ := { queue := [], abstime := 0 }

/-- The signed 32-bit reading of the unsigned difference a - b, i.e.
int diff = a - b in the C (both operands already reduced mod 2^32). -/
def sdiff32 (a b : Nat) : Int :=
  let d := (a % M32 + (M32 - b % M32)) % M32
  if d < 2 ^ 31 then (d : Int) else (d : Int) - (M32 : Int)

/-- The insertion scan of timo_add: walk the queue and link the new
timeout before the first node whose val - newval is positive. -/
def timo_insert (o : Timo) : List Timo → List Timo
  | [] => [o]
  | t :: rest =>
    if sdiff32 t.val o.val > 0 then o :: t :: rest
    else t :: timo_insert o rest

/-- timo_add (state.c): val = timo_abstime + delta (mod 2^32), mark the
timeout set and insert it in expiry order. -/
def timo_add (q : TimoQ) (id : Nat) (delta : Nat) : TimoQ :=
  let val := (q.abstime + delta) % M32
  { q with queue := timo_insert { id := id, val := val, set := true } q.queue }

/-- timo_del (state.c): unlink a scheduled timeout and clear set;
a no-op when it is not in the queue. -/
def timo_del (q : TimoQ) (id : Nat) : TimoQ :=
  { q with queue :=
      match q.queue.findIdx? (fun t => t.id = id) with
      | none => q.queue
      | some i => q.queue.eraseIdx i }

/-- The drain loop of timo_update: pop and run every timeout at the head
whose val - timo_abstime is not positive, clearing its set flag.
Returns the remaining queue and the fired timeouts in firing order. -/
def timo_pop (abstime : Nat) : List Timo → List Timo × List Timo
  | [] => ([], [])
  | t :: rest =>
    if sdiff32 t.val abstime ≤ 0 then
      let p := timo_pop abstime rest
      (p.1, { t with set := false } :: p.2)
    else (t :: rest, [])

/-- timo_update (state.c): advance timo_abstime by delta (mod 2^32) and
run the expired timeouts in queue order. -/
def timo_update (q : TimoQ) (delta : Nat) : TimoQ × List Timo :=
  let abstime := (q.abstime + delta) % M32
  let p := timo_pop abstime q.queue
  ({ queue := p.1, abstime := abstime }, p.2)

/-! ## track.c : the delta-timed event list

A track is modelled as the list of its seqev records from first to the
end-of-track sentinel, which is the last element and carries EV_NULL;
positions are indices into that list.  seqev_rm of the sentinel is
undefined in the C (it dereferences a null next pointer and the debug
build asserts against it), so the embedding rejects it. -/

/-- struct seqev: the delta (ticks before the event) and the event. -/
structure Seqev where
  delta : Nat
  ev : Ev
deriving DecidableEq, Repr

/-- track_numtic (track.c): the number of ticks in the track, i.e. the
sum of all deltas, end-of-track included. -/
def track_numtic (l : List Seqev) : Nat :=
  (l.map fun se => se.delta).sum

/-- The end-of-track invariant: the list is non-empty and its last
element is the EV_NULL sentinel (track_init creates it; it is always
present, last, and reachable from first by walking next pointers,
which is what indexing the list models). -/
def track_wf : List Seqev → Bool
  | [] => false
  | [se] => se.ev.cmd = EvCmd.null
  | _ :: rest => track_wf rest

/-- seqev_ins (track.c): insert se just before position i; the new
event takes over the delta of the event at i, whose delta becomes 0
(the delta field of se itself is ignored).  none when the position is
past the end of the list. -/
def seqev_ins : List Seqev → Nat → Seqev → Option (List Seqev)
  | pos :: rest, 0, se =>
    some ({ se with delta := pos.delta } :: { pos with delta := 0 } :: rest)
  | p :: rest, i + 1, se => (seqev_ins rest i se).map fun l => p :: l
  | [], _, _ => none

/-- seqev_rm (track.c): unlink the event at position i, adding its delta
to the delta of the following event.  none for the end-of-track
sentinel (whose removal the C forbids) or a position past the end. -/
def seqev_rm : List Seqev → Nat → Option (List Seqev)
  | pos :: nxt :: rest, 0 =>
    if pos.ev.cmd = EvCmd.null then none
    else some ({ nxt with delta := nxt.delta + pos.delta } :: rest)
  | p :: rest, i + 1 => (seqev_rm rest i).map fun l => p :: l
  | _, _ => none

/-! ## pool.h : the fixed-size object pool

pool_init threads a free list through the itemnum slots of the data
block, pushing them in address order, so the initial free list holds
the slot indices itemnum-1, ..., 0.  Slots are identified by their
index; since itemsize is at least the size of a pointer, distinct
indices are non-aliasing slots.  pool_new panics (error) when the free
list is empty. -/

/-- struct pool, reduced to its free list of slot indices. -/
structure Pool where
  free : List Nat
deriving DecidableEq, Repr

/-- pool_init (pool.h): all itemnum slots are free; the loop pushes the
slots in increasing address order, leaving the highest slot first. -/
def pool_init (itemnum : Nat) : Pool :=
  { free := (List.range itemnum).reverse }

/-- pool_new (pool.h): unlink the head of the free list; panic (error)
when the pool is empty. -/
def pool_new (o : Pool) : Except Unit (Pool × Nat) :=
  match o.free with
  | [] => Except.error ()
  | e :: rest => Except.ok ({ free := rest }, e)

/-- pool_del (pool.h): link the released slot back at the head of the
free list. -/
def pool_del (o : Pool) (p : Nat) : Pool :=
  { free := p :: o.free }

/-- A client-visible pool action: an allocation, or the release of the
named slot. -/
inductive PoolOp where
  | new
  | del (i : Nat)
deriving DecidableEq, Repr

/-- Run a list of pool actions, tracking the ghost list of live
(acquired, not yet released) slots; an allocation failure aborts. -/
def pool_run : Pool → List Nat → List PoolOp → Except Unit (Pool × List Nat)
  | pool, live, [] => Except.ok (pool, live)
  | pool, live, PoolOp.new :: ops =>
    match pool_new pool with
    | Except.error e => Except.error e
    | Except.ok (pool', i) => pool_run pool' (i :: live) ops
  | pool, live, PoolOp.del i :: ops =>
    pool_run (pool_del pool i) (live.erase i) ops

/-- The validity of an action sequence against a pool of capacity cap:
an allocation happens only while fewer than cap slots are live, and a
release names a live slot (releasing anything else is a use-after-free
the C pool does not defend against). -/
def pool_valid (cap : Nat) : Pool → List Nat → List PoolOp → Bool
  | _, _, [] => true
  | pool, live, PoolOp.new :: ops =>
    decide (live.length < cap) &&
    (match pool_new pool with
     | Except.error _ => true
     | Except.ok (pool', i) => pool_valid cap pool' (i :: live) ops)
  | pool, live, PoolOp.del i :: ops =>
    decide (i ∈ live) && pool_valid cap (pool_del pool i) (live.erase i) ops

/-! ## mux.c : the transport phase machine

The numeric transport phase constants come from mux.h, which is not
under src/; their values are modelled from the spec state diagram
(STOP, STARTWAIT, START, FIRST_TIC, NEXT_TIC) with the order fixed by
the comparisons in mux.c itself: mux_stopcb tests
MUX_START <= phase <= MUX_NEXT for the running phases, mux_stopreq
tests phase < MUX_STOP for every non-stopped phase, and mux_mtcstop
tests MUX_START <= phase; hence STARTWAIT < START < FIRST < NEXT < STOP.

Note on the source text: mux.c as shipped contains 93 opening against
92 closing braces -- the brace closing the osensto block of
mux_timercb (after line 483) is missing, so the file cannot compile
as written.  The embedding follows the structure dictated by the
indentation (the imtc timeout check is a sibling of the osensto check
inside the device loop, and the internal clock generation block comes
after the loop), which is the only reading under which the file
parses.

Devices are the registered mididev records in list order, identified
by their position in the list; the optional clock source is the index
of that device (mididev_clksrc), and mtcsrc records whether an MTC
source device exists (its identity is not needed by the modelled
paths).  Emitted MIDI messages and the song_xxx callback invocations
are recorded in an output log. -/

def MUX_STARTWAIT : Nat := 0

def MUX_START : Nat := 1

def MUX_FIRST : Nat := 2

def MUX_NEXT : Nat := 3

def MUX_STOP : Nat := 4

/-- MUX_START_DELAY (mux.c): 24000000 / 3 = 8000000 units of 1/24 us,
one tick at 30 bpm. -/
def MUX_START_DELAY : Nat := 24000000 / 3

/-- TEMPO_TO_USEC24 (defs.h). -/
def TEMPO_TO_USEC24 (tempo tpb : Nat) : Nat :=
  60 * 24000000 / (tempo * tpb)

/-- DEFAULT_USEC24 (defs.h): 120 bpm at 24 ticks per beat = 500000. -/
def DEFAULT_USEC24 : Nat := TEMPO_TO_USEC24 120 24

/-- DEFAULT_TPU (defs.h). -/
def DEFAULT_TPU : Nat := 96

/-- MIDIDEV_OSENSTO (mididev.h): 250 ms in 1/24 us. -/
def MIDIDEV_OSENSTO : Nat := 250 * 24 * 1000

/-- The fields of struct mididev (mididev.h) that mux.c reads or
writes. -/
structure Mididev where
  sendclk : Bool := false
  sendmmc : Bool := false
  ticrate : Nat := 96
  ticdelta : Nat := 0
  isensto : Nat := 0
  osensto : Nat := 0
  imtcTimo : Nat := 0
deriving DecidableEq, Repr

/-- One entry of the output log: a wire message to a device, or a
callback into the song collaborator.  The song tick callbacks record
the wall clock at which they fired. -/
inductive MuxOut where
  | tic (dev : Nat)
  | start (dev : Nat)
  | stop (dev : Nat)
  | ack (dev : Nat)
  | raw (dev : Nat) (msg : List Nat)
  | songStart (wallclock : Nat)
  | songMove (wallclock : Nat)
  | songStop
  | songGoto
  | mtcTimo (dev : Nat)
  | sensingLost (dev : Nat)
deriving DecidableEq, Repr

/-- The global transport state of mux.c. -/
structure MuxSt where
  phase : Nat
  reqphase : Nat
  ticlength : Nat
  ticrate : Nat
  curpos : Nat
  nextpos : Nat
  curtic : Nat
  wallclock : Nat
  manualstart : Bool
  devs : List Mididev
  clksrc : Option Nat
  mtcsrc : Bool
  out : List MuxOut
  phaseLog : List Nat
deriving DecidableEq, Repr

/-- mux_chgphase (mux.c): set mux_phase, logging the transition. -/
def mux_chgphase (s : MuxSt) (phase : Nat) : MuxSt :=
  { s with phase := phase, phaseLog := s.phaseLog ++ [phase] }

/-- The per-device body of mux_sendtic: while ticdelta >= mux_ticrate
emit a tick and subtract mux_ticrate, then add the device ticrate.
The loop runs ticdelta / mux_ticrate times; for mux_ticrate = 0 the C
loop would not terminate (mux_ticrate is DEFAULT_TPU = 96 or a user
supplied ticks-per-unit, never 0). -/
def sendtic_dev (muxrate : Nat) (i : Nat) (d : Mididev) : Mididev × List MuxOut :=
  if muxrate = 0 then (d, [])
  else
    ({ d with ticdelta := d.ticdelta % muxrate + d.ticrate },
      List.replicate (d.ticdelta / muxrate) (MuxOut.tic i))

/-- The device loop of mux_sendtic, skipping devices without sendclk
and the clock source itself. -/
def sendtic_go (muxrate : Nat) (clksrc : Option Nat) :
    Nat → List Mididev → List Mididev × List MuxOut
  | _, [] => ([], [])
  | i, d :: rest =>
    let p := sendtic_go muxrate clksrc (i + 1) rest
    if d.sendclk = true ∧ clksrc ≠ some i then
      let q := sendtic_dev muxrate i d
      (q.1 :: p.1, q.2 ++ p.2)
    else (d :: p.1, p.2)

/-- mux_sendtic (mux.c). -/
def mux_sendtic (s : MuxSt) : MuxSt :=
  let p := sendtic_go s.ticrate s.clksrc 0 s.devs
  { s with devs := p.1, out := s.out ++ p.2 }

/-- The device loop of mux_sendstart: reset ticdelta to the device
ticrate and send a spurious tick followed by the start byte. -/
def sendstart_go (clksrc : Option Nat) :
    Nat → List Mididev → List Mididev × List MuxOut
  | _, [] => ([], [])
  | i, d :: rest =>
    let p := sendstart_go clksrc (i + 1) rest
    if d.sendclk = true ∧ clksrc ≠ some i then
      ({ d with ticdelta := d.ticrate } :: p.1,
        MuxOut.tic i :: MuxOut.start i :: p.2)
    else (d :: p.1, p.2)

/-- mux_sendstart (mux.c). -/
def mux_sendstart (s : MuxSt) : MuxSt :=
  let p := sendstart_go s.clksrc 0 s.devs
  { s with devs := p.1, out := s.out ++ p.2 }

/-- The device loop of mux_sendstop: a stop byte to every sendclk
device that is not the clock source. -/
def sendstop_go (clksrc : Option Nat) : Nat → List Mididev → List MuxOut
  | _, [] => []
  | i, d :: rest =>
    (if d.sendclk = true ∧ clksrc ≠ some i then [MuxOut.stop i] else []) ++
      sendstop_go clksrc (i + 1) rest

/-- mux_sendstop (mux.c). -/
def mux_sendstop (s : MuxSt) : MuxSt :=
  { s with out := s.out ++ sendstop_go s.clksrc 0 s.devs }

/-- The sendmmc loop shared by mux_startreq, mux_stopreq and
mux_gotoreq: the raw MMC message to every device with sendmmc set. -/
def mmc_sends (msg : List Nat) : Nat → List Mididev → List MuxOut
  | _, [] => []
  | i, d :: rest =>
    (if d.sendmmc then [MuxOut.raw i msg] else []) ++ mmc_sends msg (i + 1) rest

/-- The MMC start sysex of mux_startreq. -/
def mmc_start_msg : List Nat := [0xf0, 0x7f, 0x7f, 0x06, 0x02, 0xf7]

/-- The MMC stop sysex of mux_stopreq. -/
def mmc_stop_msg : List Nat := [0xf0, 0x7f, 0x7f, 0x06, 0x01, 0xf7]

/-- The body of the mux_ticcb loop: advance the phase machine by one
tick -- a first tick turns START into FIRST (resetting curpos and
arming nextpos), a later one turns FIRST into NEXT; a NEXT tick
advances curtic, broadcasts clock ticks and calls song_movecb, while a
FIRST tick resets curtic, broadcasts and calls song_startcb. -/
def mux_ticcb_body (s : MuxSt) : MuxSt :=
  let s :=
    if s.phase = MUX_FIRST then mux_chgphase s MUX_NEXT
    else if s.phase = MUX_START then
      mux_chgphase { s with curpos := 0, nextpos := s.ticlength } MUX_FIRST
    else s
  if s.phase = MUX_NEXT then
    let s := { s with curtic := (s.curtic + 1) % M32 }
    let s := mux_sendtic s
    { s with out := s.out ++ [MuxOut.songMove s.wallclock] }
  else if s.phase = MUX_FIRST then
    let s := { s with curtic := 0 }
    let s := mux_sendtic s
    { s with out := s.out ++ [MuxOut.songStart s.wallclock] }
  else s

/-- The clock-source loop of mux_ticcb: while the clock source device
has accumulated a full device tick, run the body and subtract its
ticrate; when it has not, credit mux_ticrate and stop.  The loop
consumes at least clock-source ticrate (>= 1 in any real
configuration) of ticdelta per iteration, so ticdelta + 1 units of
fuel always suffice; for ticrate = 0 the C loop would not
terminate. -/
def mux_ticcb_clkloop (ci : Nat) : Nat → MuxSt → MuxSt
  | 0, s => s
  | fuel + 1, s =>
    match s.devs[ci]? with
    | none => s
    | some d =>
      if d.ticdelta < d.ticrate then
        { s with devs := s.devs.set ci { d with ticdelta := d.ticdelta + s.ticrate } }
      else
        let s := mux_ticcb_body s
        let s :=
          match s.devs[ci]? with
          | none => s
          | some d' =>
            { s with devs := s.devs.set ci { d' with ticdelta := d'.ticdelta - d'.ticrate } }
        mux_ticcb_clkloop ci fuel s

/-- mux_ticcb (mux.c): with no clock source the for loop runs its body
exactly once and breaks; with a clock source it runs the rate-matching
loop. -/
def mux_ticcb (s : MuxSt) : MuxSt :=
  match s.clksrc with
  | none => mux_ticcb_body s
  | some ci =>
    let fuel :=
      match s.devs[ci]? with
      | none => 1
      | some d => d.ticdelta + 1
    mux_ticcb_clkloop ci fuel s

/-- The while loop of mux_mtctick: as long as curpos has reached
nextpos, consume nextpos, re-arm nextpos with one tick length, and --
unless a manual start is pending in phase START -- fire the tick.
Each pass beyond the first consumes ticlength >= 1 of curpos, so
curpos + 2 units of fuel always suffice; for ticlength = 0 the C loop
would not terminate (tick lengths are bounded below by TEMPO_MAX). -/
def mux_mtctick_loop : Nat → MuxSt → MuxSt
  | 0, s => s
  | fuel + 1, s =>
    if s.curpos ≥ s.nextpos then
      let s := { s with curpos := s.curpos - s.nextpos, nextpos := s.ticlength }
      let s :=
        if !s.manualstart || s.phase ≠ MUX_START then mux_ticcb s else s
      mux_mtctick_loop fuel s
    else s

/-- mux_mtctick (mux.c). -/
def mux_mtctick (s : MuxSt) (delta : Nat) : MuxSt :=
  let s := { s with curpos := (s.curpos + delta) % M64 }
  mux_mtctick_loop (s.curpos + 2) s

/-- mux_startcb (mux.c): on a MIDI start event in STARTWAIT, rewind to
the beginning when an external clock source drives us, enter START and
broadcast the start event (mux_flush after it does not change the
model state).  In any other phase the start event is ignored. -/
def mux_startcb (s : MuxSt) : MuxSt :=
  if s.phase ≠ MUX_STARTWAIT then s
  else
    let s :=
      if s.clksrc.isSome then
        { s with curpos := 0, nextpos := s.ticlength, out := s.out ++ [MuxOut.songGoto] }
      else s
    let s := mux_chgphase s MUX_START
    mux_sendstart s

/-- mux_stopcb (mux.c): on a MIDI stop event, broadcast the stop byte
when the transport is in a running phase, then fall back to the
requested phase and tell the song to stop. -/
def mux_stopcb (s : MuxSt) : MuxSt :=
  let s :=
    if MUX_START ≤ s.phase ∧ s.phase ≤ MUX_NEXT then mux_sendstop s else s
  let s := mux_chgphase s s.reqphase
  { s with out := s.out ++ [MuxOut.songStop] }

/-- mux_mtcstop (mux.c): ignored while an external clock source is in
charge; otherwise generate a stop if the transport was started. -/
def mux_mtcstop (s : MuxSt) : MuxSt :=
  if s.clksrc.isSome then s
  else if MUX_START ≤ s.phase then mux_stopcb s
  else s

/-- mux_mtcstart (mux.c): a running transport is first stopped; a
stopped one ignores the MTC start.  When an external MTC source is in
charge, curpos is set from the song_gotocb collaborator (passed in as
gotoPos since its computation lives outside this core) and the C
panics when that offset is at least one tick.  Finally a clock start
is generated. -/
def mux_mtcstart (gotoPos : Nat) (s : MuxSt) : Except Unit MuxSt :=
  let s :=
    if MUX_START ≤ s.phase ∧ s.phase ≤ MUX_NEXT then mux_mtcstop s else s
  if s.phase = MUX_STOP then Except.ok s
  else
    if s.mtcsrc then
      let s := { s with curpos := gotoPos % M64, nextpos := s.ticlength,
                        out := s.out ++ [MuxOut.songGoto] }
      if s.curpos ≥ s.nextpos then Except.error ()
      else Except.ok (mux_startcb s)
    else Except.ok (mux_startcb s)

/-- mux_startreq (mux.c): request a start.  Record the manual-start
flag and the requested phase STARTWAIT; panic unless the transport is
stopped; enter STARTWAIT.  Without an external clock or MTC source,
rewind, arm nextpos with MUX_START_DELAY and generate an MTC start
(the 0xdeadbeef position is ignored on this path); with one, rewind
and arm one tick length.  Finally send MMC start to the sendmmc
devices. -/
def mux_startreq (s : MuxSt) (manualstart : Bool) : Except Unit MuxSt :=
  let s := { s with manualstart := manualstart, reqphase := MUX_STARTWAIT }
  if s.phase ≠ MUX_STOP then Except.error ()
  else
    let s := mux_chgphase s MUX_STARTWAIT
    let r : Except Unit MuxSt :=
      if s.clksrc = none ∧ s.mtcsrc = false then
        mux_mtcstart 0 { s with curpos := 0, nextpos := MUX_START_DELAY }
      else
        Except.ok { s with curpos := 0, nextpos := s.ticlength }
    match r with
    | Except.error e => Except.error e
    | Except.ok s =>
      Except.ok { s with out := s.out ++ mmc_sends mmc_start_msg 0 s.devs }

/-- mux_stopreq (mux.c): request a stop -- the requested phase becomes
STOP, a stop is generated unless the transport is already stopped, and
MMC stop goes to the sendmmc devices. -/
def mux_stopreq (s : MuxSt) : MuxSt :=
  let s := { s with reqphase := MUX_STOP }
  let s := if s.phase < MUX_STOP then mux_stopcb s else s
  { s with out := s.out ++ mmc_sends mmc_stop_msg 0 s.devs }

/-- The per-device sensing bookkeeping of mux_timercb: run down the
input sensing watchdog, the output sensing (keep-alive) timer and the
MTC quarter-frame watchdog by delta. -/
def sens_dev (delta : Nat) (i : Nat) (d : Mididev) : Mididev × List MuxOut :=
  let p1 :=
    if d.isensto ≠ 0 then
      if d.isensto ≤ delta then ({ d with isensto := 0 }, [MuxOut.sensingLost i])
      else ({ d with isensto := d.isensto - delta }, [])
    else (d, [])
  let d := p1.1
  let p2 :=
    if d.osensto ≠ 0 then
      if d.osensto ≤ delta then ({ d with osensto := MIDIDEV_OSENSTO }, [MuxOut.ack i])
      else ({ d with osensto := d.osensto - delta }, [])
    else (d, [])
  let d := p2.1
  let p3 :=
    if d.imtcTimo ≠ 0 then
      if d.imtcTimo ≤ delta then ({ d with imtcTimo := 0 }, [MuxOut.mtcTimo i])
      else ({ d with imtcTimo := d.imtcTimo - delta }, [])
    else (d, [])
  (p3.1, p1.2 ++ p2.2 ++ p3.2)

/-- The device loop of mux_timercb. -/
def sens_go (delta : Nat) : Nat → List Mididev → List Mididev × List MuxOut
  | _, [] => ([], [])
  | i, d :: rest =>
    let q := sens_dev delta i d
    let p := sens_go delta (i + 1) rest
    (q.1 :: p.1, q.2 ++ p.2)

/-- mux_timercb (mux.c): advance the wall clock, run the device
sensing timers, and -- when neither an external MTC source nor a clock
source exists -- drive the transport from the internal timer: the
START phase accumulates curpos until MUX_START_DELAY is reached and
then generates the tick stream, the FIRST/NEXT phases feed the delta
to mux_mtctick.  A STARTWAIT phase without a pending manual start is
an assertion failure (panic).  The timo queue run by timo_update at
the top belongs to collaborators (metronome, MTC timers) outside this
core and its callbacks do not touch the transport fields, so the
transport state carries no queue. -/
def mux_timercb (s : MuxSt) (delta : Nat) : Except Unit MuxSt :=
  let s := { s with wallclock := (s.wallclock + delta) % M64 }
  let p := sens_go delta 0 s.devs
  let s := { s with devs := p.1, out := s.out ++ p.2 }
  if s.mtcsrc = false ∧ s.clksrc = none then
    if s.phase = MUX_STARTWAIT then
      if !s.manualstart then Except.error () else Except.ok s
    else if s.phase = MUX_START then
      let s := { s with curpos := (s.curpos + delta) % M64 }
      if s.curpos ≥ s.nextpos then
        Except.ok (mux_mtctick { s with curpos := 0, nextpos := 0 } 0)
      else Except.ok s
    else if s.phase = MUX_FIRST ∨ s.phase = MUX_NEXT then
      Except.ok (mux_mtctick s delta)
    else Except.ok s
  else Except.ok s

/-- Iterated mux_timercb over a list of timer deltas. -/
def mux_run (s : MuxSt) : List Nat → Except Unit MuxSt
  | [] => Except.ok s
  | d :: ds =>
    match mux_timercb s d with
    | Except.error e => Except.error e
    | Except.ok s' => mux_run s' ds

/-- The transport state right after mux_open: phase and requested phase
STOP, default tempo (DEFAULT_USEC24 = 500000 units per tick), default
ticks per unit, positions and wall clock zeroed, and every registered
device with its tick counter and sensing timers reset. -/
def mux_open_st (devs : List Mididev) : MuxSt :=
  { phase := MUX_STOP, reqphase := MUX_STOP,
    ticlength := DEFAULT_USEC24, ticrate := DEFAULT_TPU,
    curpos := 0, nextpos := 0, curtic := 0, wallclock := 0,
    manualstart := true,
    devs := devs.map fun d =>
      { d with ticdelta := d.ticrate, isensto := 0, osensto := MIDIDEV_OSENSTO },
    clksrc := none, mtcsrc := false, out := [], phaseLog := [] }

/-- The wall-clock stamps of the song tick callbacks (song_startcb and
song_movecb) in the output log, in firing order. -/
def songEv : MuxOut → Option Nat
  | MuxOut.songStart w => some w
  | MuxOut.songMove w => some w
  | _ => none

def tickStamps (s : MuxSt) : List Nat :=
  s.out.filterMap songEv

/-- The number of ticks the internal clock has fired once the
accumulated timer delta is T: none before MUX_START_DELAY, then one
plus one more per further DEFAULT_USEC24. -/
def c1ticks (T : Nat) : Nat :=
  if T < 8000000 then 0 else (T - 8000000) / 500000 + 1

/-! ## Concrete scenario inputs used by the theorems below -/

/-- NOTE_ON dev=0 ch=0 note=60 vel=100. -/
def evNon60 : Ev := { cmd := EvCmd.non, v0 := 60, v1 := 100 }

/-- NOTE_ON dev=0 ch=0 note=61 vel=100. -/
def evNon61 : Ev := { cmd := EvCmd.non, v0 := 61, v1 := 100 }

/-- NOTE_OFF dev=0 ch=0 note=60 vel=0. -/
def evNoff60 : Ev := { cmd := EvCmd.noff, v0 := 60, v1 := 0 }

/-- Key aftertouch dev=0 ch=0 note=60. -/
def evKat60 : Ev := { cmd := EvCmd.kat, v0 := 60, v1 := 50 }

/-- The empty state list. -/
def slEmpty : Statelist := { states := [], changed := false }

/-- The result of a single note-on update on the empty list. -/
def c5fst : Statelist × State :=
  (statelist_update slEmpty evNon60).getD
    (slEmpty, { ev := evNon60, phase := {}, flags := {} })

/-- Three updates on an empty list: a note-on on note 60, a note-on on
note 61 (which lands at the head), then key aftertouch on note 60,
which matches the note-60 state sitting behind the head. -/
def c5chain : Option (Statelist × State) :=
  (statelist_update slEmpty evNon60).bind fun p =>
    (statelist_update p.1 evNon61).bind fun p2 =>
      statelist_update p2.1 evKat60

/-- The state list reached by updating the empty list with a note-on
and its note-off. -/
def c4sl : Statelist :=
  (statelist_run slEmpty [evNon60, evNoff60]).getD slEmpty

/-- A non-bogus open note state (as created by a note-on). -/
def c6note : State :=
  { ev := evNon60, phase := PH_FIRST, flags := { new := true, changed := true } }

/-- A bogus state (mid-stream note-off). -/
def c6bogus : State :=
  { ev := evNoff60, phase := PH_FIRST_LAST,
    flags := { new := true, changed := true, bogus := true } }

/-- A stateless program-change state. -/
def c6pc : State :=
  { ev := { cmd := EvCmd.pc, v0 := 7 }, phase := PH_FIRST_LAST, flags := {} }

/-- The timeout queue of the wrap-around scenario: timo_abstime is
2^32 - 1000, T1 is scheduled with delta 500 and T2 with delta 1500,
so T1 expires at 2^32 - 500 (before the wrap) and T2 at 500 (after
it). -/
def c7q2 : TimoQ :=
  timo_add (timo_add { queue := [], abstime := M32 - 1000 } 1 500) 2 1500

/-- A two-event track: a note-on after 10 ticks, then the end-of-track
sentinel after 5 more ticks. -/
def c8track : List Seqev :=
  [{ delta := 10, ev := evNon60 }, { delta := 5, ev := { cmd := EvCmd.null } }]

/-- The inserted event of the C8 witness (its delta field is ignored
by seqev_ins). -/
def c8se : Seqev := { delta := 99, ev := { cmd := EvCmd.pc, v0 := 7 } }

/-- The C8 witness tracks: c8track with its first event removed, and
c8track with c8se inserted before the sentinel. -/
def c8rm : List Seqev := (seqev_rm c8track 0).getD []

def c8ins : List Seqev := (seqev_ins c8track 1 c8se).getD []

/-- Allocate twice from a pool of two slots, free the first slot
obtained, allocate again. -/
def c9ops : List PoolOp :=
  [PoolOp.new, PoolOp.new, PoolOp.del 1, PoolOp.new]

def c9res : Pool × List Nat :=
  (pool_run (pool_init 2) [] c9ops).toOption.getD ({ free := [] }, [])

/-- A device that forwards the MIDI clock. -/
def c2dev : Mididev := { sendclk := true }

/-- The transport state reached from mux_open with one sendclk device
by a non-manual start request followed by timer callbacks totalling
MUX_START_DELAY + DEFAULT_USEC24: the transport sits in NEXT_TIC with
the requested phase still STARTWAIT. -/
def c2st : MuxSt :=
  ((mux_startreq (mux_open_st [c2dev]) false).bind fun s =>
      mux_run s [8000000, 500000]).toOption.getD (mux_open_st [])

/-- The pool invariant tying the model to the C memory layout: the free
list and the ghost live list are disjoint lists of distinct slots that
together hold all cap slots of the arena. -/
def pool_inv (cap : Nat) (pool : Pool) (live : List Nat) : Prop :=
  (pool.free ++ live).Nodup ∧ pool.free.length + live.length = cap

/-- The state invariant of the internal-clock tick stream after a
non-manual start request, m timer callbacks of delta d each: before
the start delay elapses the transport sits in START accumulating
curpos; afterwards it alternates FIRST/NEXT with curpos the progress
into the current tick and one song callback recorded per tick
boundary reached. -/
def c1inv (d m : Nat) (s : MuxSt) : Prop :=
  s.clksrc = none ∧ s.mtcsrc = false ∧ s.manualstart = false ∧
  s.ticlength = 500000 ∧ s.wallclock = m * d ∧
  (if m * d < 8000000 then
    s.phase = MUX_START ∧ s.curpos = m * d ∧ s.nextpos = 8000000 ∧
      tickStamps s = []
  else
    (s.phase = if m * d - 8000000 < 500000 then MUX_FIRST else MUX_NEXT) ∧
      s.curpos = (m * d - 8000000) % 500000 ∧ s.nextpos = 500000 ∧
      tickStamps s =
        (List.range ((m * d - 8000000) / 500000 + 1)).map
          fun k => 8000000 + k * 500000)

/-! ## Theorems -/

/-- Claim C7: timeout arithmetic is modulo 2^32 with signed comparison
of differences, so expiry works across wrap-around: with timo_abstime
at 2^32 - 1000, after timo_add(T1, 500) and timo_add(T2, 1500) the
queue holds T1 before T2 despite the wrapped value of T2, and a single
timo_update(2000) fires both callbacks, T1 strictly before T2, leaving
both timeouts cleared (set = 0) and the queue empty. -/
theorem C7_timo_wrap :
    (c7q2.queue.map fun t => t.id) = [1, 2] ∧
    ((timo_update c7q2 2000).2.map fun t => (t.id, t.set)) =
      [(1, false), (2, false)] ∧
    (timo_update c7q2 2000).1.queue = [] ∧
    (timo_update c7q2 2000).1.abstime = 1000 := by
  refine ⟨?_, ?_, ?_, ?_⟩ <;> decide

/-- Claim C6 (amended): state_restore returns 0 for every BOGUS state
and for every terminated non-stateless state (phase has LAST but not
FIRST); for a non-bogus note-family state it does not return 0 but
panics (the C logs "can't restore note events" and aborts); for every
other state it writes exactly one event, the last-known event of the
state, and returns 1. -/
theorem C6_state_restore (st : State) :
    (st.flags.bogus = true → state_restore st = Except.ok none) ∧
    (st.flags.bogus = false → EV_ISNOTE st.ev = true →
      state_restore st = Except.error ()) ∧
    (st.flags.bogus = false → EV_ISNOTE st.ev = false →
      st.phase.last = true → st.phase.first = false →
      state_restore st = Except.ok none) ∧
    (st.flags.bogus = false → EV_ISNOTE st.ev = false →
      (st.phase.last = false ∨ st.phase.first = true) →
      state_restore st = Except.ok (some st.ev)) := by
  refine ⟨?_, ?_, ?_, fun hb hn ho => ?_⟩
  · intros; simp_all [state_restore]
  · intros; simp_all [state_restore]
  · intros; simp_all [state_restore]
  · rcases ho with h | h <;> simp_all [state_restore]

/-- Claim C6 counterexample: the claim says state_restore returns 0 for
every note-family state, but on a non-bogus open note state the code
panics instead of returning. -/
theorem C6_counterexample :
    state_restore c6note = Except.error () ∧
    (Except.error () : Except Unit (Option Ev)) ≠ Except.ok none := by
  exact ⟨rfl, fun h => nomatch h⟩

/-- Claim C6 witness: a bogus state restores to nothing and a stateless
program change restores to its own event. -/
theorem C6_witness :
    state_restore c6bogus = Except.ok none ∧
    state_restore c6pc = Except.ok (some c6pc.ev) := by
  refine ⟨(C6_state_restore c6bogus).1 rfl, ?_⟩
  exact (C6_state_restore c6pc).2.2.2 rfl rfl (Or.inr rfl)

/-- When every state matching ev is terminated or bogus, the update
scan falls off the end of the list and reports a fresh frame. -/
theorem upd_scan_fresh (ev : Ev) (l : List State)
    (h : ∀ st ∈ l, state_match st ev = true →
      st.phase = PH_LAST ∨ st.flags.bogus = true) :
    ∃ l', upd_scan ev l = ScanRes.fresh l' := by
  induction l with
  | nil => exact ⟨[], rfl⟩
  | cons st rest ih =>
    obtain ⟨l', hl'⟩ := ih fun s hs hm => h s (List.mem_cons_of_mem _ hs) hm
    by_cases hm : state_match st ev = true
    · have hbad := h st (List.mem_cons_self _ _) hm
      have hcond : ¬ (st.phase ≠ PH_LAST ∧ st.flags.bogus = false) := by
        rcases hbad with hb | hb
        · exact fun hc => hc.1 hb
        · exact fun hc => by rw [hb] at hc; exact absurd hc.2 (by simp)
      refine ⟨l', ?_⟩
      rw [upd_scan, if_pos hm, if_neg hcond, hl']
    · refine ⟨st :: l', ?_⟩
      rw [upd_scan, if_neg (by simpa using hm), hl']

/-- The state returned by a successful update scan has its STATE_NEW
bit cleared. -/
theorem upd_scan_found_new (ev : Ev) :
    ∀ l pre st post, upd_scan ev l = ScanRes.found pre st post →
      st.flags.new = false := by
  intro l
  induction l with
  | nil => intro pre st post h; simp [upd_scan] at h
  | cons s0 rest ih =>
    intro pre st post h
    by_cases hm : state_match s0 ev = true
    · by_cases hc : s0.phase ≠ PH_LAST ∧ s0.flags.bogus = false
      · rw [upd_scan, if_pos hm, if_pos hc] at h
        obtain ⟨_, hst, _⟩ := ScanRes.found.inj h
        rw [← hst]
      · rw [upd_scan, if_pos hm, if_neg hc] at h
        exact ih _ _ _ h
    · rw [upd_scan, if_neg (by simpa using hm)] at h
      rcases he : upd_scan ev rest with ⟨pre', s', post'⟩ | ⟨l0⟩
      · rw [he] at h
        obtain ⟨_, hst, _⟩ := ScanRes.found.inj h
        exact hst ▸ ih _ _ _ he
      · rw [he] at h; exact nomatch h

/-- Claim C3 (amended): for every event whose phase is NEXT or LAST
arriving when no matching open state exists in the statelist,
statelist_update produces a state with the BOGUS flag set and an
effective phase containing the FIRST bit, the full flag set being
BOGUS, NEW and (set by state_copyev) CHANGED; in particular updating
an empty statelist with NOTE_OFF ch=0 note=60 vel=0 yields a state
whose flags are exactly BOGUS, NEW and CHANGED and whose phase is
exactly FIRST and LAST. -/
theorem C3_bogus_frame (sl : Statelist) (ev : Ev)
    (hph : ev_phase ev = PH_NEXT ∨ ev_phase ev = PH_LAST)
    (hnm : ∀ st ∈ sl.states, state_match st ev = true →
      st.phase = PH_LAST ∨ st.flags.bogus = true) :
    (∃ sl' st, statelist_update sl ev = some (sl', st) ∧
      st.flags.bogus = true ∧ st.phase.first = true ∧
      st.flags = { new := true, changed := true, bogus := true } ∧
      sl'.states.head? = some st) ∧
    (statelist_update slEmpty evNoff60).map (fun p => (p.2.flags, p.2.phase)) =
      some ({ new := true, changed := true, bogus := true }, PH_FIRST_LAST) := by
  obtain ⟨l', hl'⟩ := upd_scan_fresh ev sl.states hnm
  refine ⟨?_, by decide⟩
  rcases hph with hph | hph
  · have hupd : statelist_update sl ev = some
        ({ states := { ev := ev, phase := { first := true }, flags := { new := true, changed := true, bogus := true } } :: l', changed := true },
         { ev := ev, phase := { first := true }, flags := { new := true, changed := true, bogus := true } }) := by
      simp [statelist_update, statelist_update_step, hl', hph, state_copyev, PH_NEXT, FL_NEW]
    exact ⟨_, _, hupd, rfl, rfl, rfl, rfl⟩
  · have hupd : statelist_update sl ev = some
        ({ states := { ev := ev, phase := { first := true, last := true }, flags := { new := true, changed := true, bogus := true } } :: l', changed := true },
         { ev := ev, phase := { first := true, last := true }, flags := { new := true, changed := true, bogus := true } }) := by
      simp [statelist_update, statelist_update_step, hl', hph, state_copyev, PH_LAST, FL_NEW]
    exact ⟨_, _, hupd, rfl, rfl, rfl, rfl⟩

/-- Claim C3 counterexample: the claim that the resulting flags are
exactly BOGUS and NEW fails, because state_copyev also sets CHANGED on
the state it returns. -/
theorem C3_counterexample :
    ¬ ((statelist_update slEmpty evNoff60).map (fun p => p.2.flags) =
        some { new := true, bogus := true }) := by
  decide

/-- Claim C3 witness: key aftertouch (phase NEXT) on the empty list. -/
theorem C3_witness :
    (statelist_update slEmpty evKat60).map
        (fun p => (p.2.flags.bogus, p.2.phase.first)) = some (true, true) := by
  obtain ⟨⟨sl', st, hupd, hb, hf, _, _⟩, _⟩ :=
    C3_bogus_frame slEmpty evKat60 (Or.inl (by decide)) (by intro st h; simp [slEmpty] at h)
  rw [hupd]
  simp [hb, hf]

/-- Claim C5 (amended): when statelist_update(ev) returns, the returned
state stores exactly ev, its CHANGED flag is set and the statelist has
its changed flag set; the returned state is an element of the updated
list and is its head whenever the incoming phase is FIRST (a fresh or
NESTED state is pushed at the head), but a matched open state is
updated in place and need not be the head. -/
theorem C5_update_result (sl : Statelist) (ev : Ev) (sl' : Statelist) (st : State)
    (h : statelist_update sl ev = some (sl', st)) :
    st.ev = ev ∧ st.flags.changed = true ∧ sl'.changed = true ∧
    st ∈ sl'.states ∧
    (ev_phase ev = PH_FIRST → sl'.states.head? = some st) := by
  have hnew : ∀ pre s0 post, upd_scan ev sl.states = ScanRes.found pre s0 post →
      ¬ s0.flags = FL_NEW := by
    intro pre s0 post he hf
    have hn := upd_scan_found_new ev sl.states pre s0 post he
    rw [hf] at hn
    exact nomatch hn
  simp only [statelist_update, statelist_update_step] at h
  rcases hscan : upd_scan ev sl.states with ⟨pre, s0, post⟩ | ⟨cleaned⟩ <;> rw [hscan] at h <;>
    rcases hph : ev_phase ev with ⟨f, n, l⟩ <;> rw [hph] at h <;>
      cases f <;> cases n <;> cases l <;> simp only [] at h
  -- 16 goals: the found cases then the fresh cases, each over the 8
  -- boolean phase combinations in the order FFF FFT FTF FTT TFF TFT TTF TTT
  · simp at h
  · rw [if_neg (hnew _ _ _ hscan)] at h
    obtain ⟨h1, h2⟩ := Prod.mk.inj (Option.some.inj h)
    subst h1; subst h2
    refine ⟨rfl, rfl, rfl, List.mem_append_right _ (List.mem_cons_self _ _), fun hc => ?_⟩
    simp [PH_FIRST] at hc
  · rw [if_neg (hnew _ _ _ hscan)] at h
    obtain ⟨h1, h2⟩ := Prod.mk.inj (Option.some.inj h)
    subst h1; subst h2
    refine ⟨rfl, rfl, rfl, List.mem_append_right _ (List.mem_cons_self _ _), fun hc => ?_⟩
    simp [PH_FIRST] at hc
  · simp at h
  · rw [if_pos (hnew _ _ _ hscan)] at h
    obtain ⟨h1, h2⟩ := Prod.mk.inj (Option.some.inj h)
    subst h1; subst h2
    exact ⟨rfl, rfl, rfl, List.mem_cons_self _ _, fun hc => rfl⟩
  · obtain ⟨h1, h2⟩ := Prod.mk.inj (Option.some.inj h)
    subst h1; subst h2
    refine ⟨rfl, rfl, rfl, List.mem_append_right _ (List.mem_cons_self _ _), fun hc => ?_⟩
    simp [PH_FIRST] at hc
  · rw [if_neg (hnew _ _ _ hscan)] at h
    obtain ⟨h1, h2⟩ := Prod.mk.inj (Option.some.inj h)
    subst h1; subst h2
    refine ⟨rfl, rfl, rfl, List.mem_append_right _ (List.mem_cons_self _ _), fun hc => ?_⟩
    simp [PH_FIRST] at hc
  · simp at h
  · simp at h
  · rw [if_pos trivial] at h
    obtain ⟨h1, h2⟩ := Prod.mk.inj (Option.some.inj h)
    subst h1; subst h2
    refine ⟨rfl, rfl, rfl, List.mem_cons_self _ _, fun hc => ?_⟩
    simp [PH_FIRST] at hc
  · rw [if_pos trivial] at h
    obtain ⟨h1, h2⟩ := Prod.mk.inj (Option.some.inj h)
    subst h1; subst h2
    refine ⟨rfl, rfl, rfl, List.mem_cons_self _ _, fun hc => ?_⟩
    simp [PH_FIRST] at hc
  · simp at h
  · rw [if_neg (not_not_intro rfl)] at h
    obtain ⟨h1, h2⟩ := Prod.mk.inj (Option.some.inj h)
    subst h1; subst h2
    exact ⟨rfl, rfl, rfl, List.mem_cons_self _ _, fun hc => rfl⟩
  · obtain ⟨h1, h2⟩ := Prod.mk.inj (Option.some.inj h)
    subst h1; subst h2
    refine ⟨rfl, rfl, rfl, List.mem_cons_self _ _, fun hc => ?_⟩
    simp [PH_FIRST] at hc
  · rw [if_pos trivial] at h
    obtain ⟨h1, h2⟩ := Prod.mk.inj (Option.some.inj h)
    subst h1; subst h2
    refine ⟨rfl, rfl, rfl, List.mem_cons_self _ _, fun hc => ?_⟩
    simp [PH_FIRST] at hc
  · simp at h

/-- Claim C5 counterexample: the claim that the returned state is the
head of the list fails -- after note-on 60, note-on 61, a key
aftertouch on note 60 matches the note-60 state behind the head and
updates it in place, so the returned state is not the head. -/
theorem C5_counterexample :
    (c5chain.map fun p => decide (p.1.states.head? = some p.2)) = some false := by
  decide

/-- Claim C5 witness: a note-on on the empty list. -/
theorem C5_witness :
    c5fst.2.ev = evNon60 ∧ c5fst.2.flags.changed = true ∧
    c5fst.1.changed = true ∧ c5fst.2 ∈ c5fst.1.states ∧
    c5fst.1.states.head? = some c5fst.2 := by
  have h : statelist_update slEmpty evNon60 = some (c5fst.1, c5fst.2) := by decide
  obtain ⟨h1, h2, h3, h4, h5⟩ := C5_update_result slEmpty evNon60 c5fst.1 c5fst.2 h
  exact ⟨h1, h2, h3, h4, h5 (by decide)⟩

/-- Every successful statelist_update sets the changed flag of the
list. -/
theorem statelist_update_changed (sl : Statelist) (ev : Ev) (sl' : Statelist)
    (st : State) (h : statelist_update sl ev = some (sl', st)) :
    sl'.changed = true := by
  unfold statelist_update at h
  rcases hs : statelist_update_step sl ev with _ | ⟨pre, st0, post, ph⟩ <;> rw [hs] at h
  · exact nomatch h
  · obtain ⟨h1, _⟩ := Prod.mk.inj (Option.some.inj h)
    rw [← h1]

/-- statelist_run keeps the changed flag once set. -/
theorem statelist_run_changed :
    ∀ (evs : List Ev) (sl sl' : Statelist), sl.changed = true →
      statelist_run sl evs = some sl' → sl'.changed = true := by
  intro evs
  induction evs with
  | nil => intro sl sl' hc h; cases h; exact hc
  | cons e r ih =>
    intro sl sl' hc h
    unfold statelist_run at h
    rcases hu : statelist_update sl e with _ | ⟨sl1, st1⟩ <;> rw [hu] at h
    · exact nomatch h
    · exact ih sl1 sl' (statelist_update_changed sl e sl1 st1 hu) h

/-- Claim C4: after a non-empty run of statelist_update calls followed
by one statelist_outdate, the outdate pass really runs (the list was
marked changed), every remaining state has phase different from
exactly-LAST and its CHANGED flag cleared, every state whose phase is
not exactly LAST is retained (with CHANGED cleared) -- in particular
the FIRST+LAST states of stateless controllers, tempo and timesig
stay queryable -- so outdate deletes exactly the states whose phase is
exactly LAST. -/
theorem C4_outdate (sl : Statelist) (e : Ev) (evs : List Ev) (sl' : Statelist)
    (h : statelist_run sl (e :: evs) = some sl') :
    (statelist_outdate sl').changed = false ∧
    (∀ st ∈ (statelist_outdate sl').states,
      st.phase ≠ PH_LAST ∧ st.flags.changed = false) ∧
    (∀ st ∈ sl'.states, st.phase ≠ PH_LAST →
      { st with flags := { st.flags with changed := false } } ∈
        (statelist_outdate sl').states) ∧
    (∀ st ∈ sl'.states, st.phase = PH_FIRST_LAST →
      { st with flags := { st.flags with changed := false } } ∈
        (statelist_outdate sl').states) := by
  have hch : sl'.changed = true := by
    unfold statelist_run at h
    rcases hu : statelist_update sl e with _ | ⟨sl1, st1⟩ <;> rw [hu] at h
    · exact nomatch h
    · exact statelist_run_changed evs sl1 sl' (statelist_update_changed sl e sl1 st1 hu) h
  have hout : statelist_outdate sl' =
      { changed := false,
        states := sl'.states.filterMap fun i =>
          if i.phase = PH_LAST then none
          else some { i with flags := { i.flags with changed := false } } } := by
    unfold statelist_outdate
    rw [hch]
    rfl
  refine ⟨by rw [hout], ?_, ?_, ?_⟩
  · intro st hst
    rw [hout] at hst
    simp only [List.mem_filterMap] at hst
    obtain ⟨a, _, hfa⟩ := hst
    by_cases hp : a.phase = PH_LAST
    · rw [if_pos hp] at hfa; exact nomatch hfa
    · rw [if_neg hp] at hfa
      obtain rfl := Option.some.inj hfa
      exact ⟨hp, rfl⟩
  · intro st hst hp
    rw [hout]
    simp only [List.mem_filterMap]
    exact ⟨st, hst, by rw [if_neg hp]⟩
  · intro st hst hp
    rw [hout]
    simp only [List.mem_filterMap]
    refine ⟨st, hst, ?_⟩
    rw [if_neg (by rw [hp]; exact fun hq => nomatch Phase.mk.inj hq)]

/-- Claim C4 witness: a note-on and its note-off, then outdate -- the
terminated frame is removed and the list ends up empty (the note
round-trip scenario of the spec). -/
theorem C4_witness :
    (statelist_outdate c4sl).changed = false ∧
    (statelist_outdate c4sl).states = [] := by
  have h : statelist_run slEmpty [evNon60, evNoff60] = some c4sl := by decide
  exact ⟨(C4_outdate slEmpty evNon60 [evNoff60] c4sl h).1, by decide⟩

/-- seqev_ins never returns the empty list. -/
theorem seqev_ins_ne_nil : ∀ (l : List Seqev) (i : Nat) (se : Seqev) (l' : List Seqev),
    seqev_ins l i se = some l' → l' ≠ [] := by
  intro l i se l' h
  cases l with
  | nil => exact nomatch h
  | cons p rest =>
    cases i with
    | zero => obtain rfl := Option.some.inj h; exact fun hq => nomatch hq
    | succ i' =>
      simp only [seqev_ins] at h
      rcases hr : seqev_ins rest i' se with _ | ⟨l''⟩ <;> rw [hr] at h
      · exact nomatch h
      · obtain rfl := Option.some.inj h; exact fun hq => nomatch hq

/-- seqev_rm never returns the empty list. -/
theorem seqev_rm_ne_nil : ∀ (l : List Seqev) (i : Nat) (l' : List Seqev),
    seqev_rm l i = some l' → l' ≠ [] := by
  intro l i l' h
  cases l with
  | nil => exact nomatch h
  | cons p rest =>
    cases i with
    | zero =>
      cases rest with
      | nil => exact nomatch h
      | cons nxt rest' =>
        by_cases hp : p.ev.cmd = EvCmd.null
        · rw [seqev_rm, if_pos hp] at h; exact nomatch h
        · rw [seqev_rm, if_neg hp] at h
          obtain rfl := Option.some.inj h; exact fun hq => nomatch hq
    | succ i' =>
      cases rest with
      | nil => exact nomatch h
      | cons nxt rest' =>
        simp only [seqev_rm] at h
        rcases hr : seqev_rm (nxt :: rest') i' with _ | ⟨l''⟩ <;> rw [hr] at h
        · exact nomatch h
        · obtain rfl := Option.some.inj h; exact fun hq => nomatch hq

/-- seqev_ins preserves the total tick count of the track: the new
event takes over the delta of the event it is inserted before. -/
theorem seqev_ins_numtic : ∀ (l : List Seqev) (i : Nat) (se : Seqev) (l' : List Seqev),
    seqev_ins l i se = some l' → track_numtic l' = track_numtic l := by
  intro l
  induction l with
  | nil => intro i se l' h; exact nomatch h
  | cons p rest ih =>
    intro i se l' h
    cases i with
    | zero =>
      obtain rfl := Option.some.inj h
      simp [track_numtic]
    | succ i' =>
      simp only [seqev_ins] at h
      rcases hr : seqev_ins rest i' se with _ | ⟨l''⟩ <;> rw [hr] at h
      · exact nomatch h
      · obtain rfl := Option.some.inj h
        have hs := ih i' se l'' hr
        simp only [track_numtic, List.map_cons, List.sum_cons] at hs ⊢
        omega

/-- seqev_rm preserves the total tick count of the track: the delta of
the removed event is added to the following event. -/
theorem seqev_rm_numtic : ∀ (l : List Seqev) (i : Nat) (l' : List Seqev),
    seqev_rm l i = some l' → track_numtic l' = track_numtic l := by
  intro l
  induction l with
  | nil => intro i l' h; exact nomatch h
  | cons p rest ih =>
    intro i l' h
    cases i with
    | zero =>
      cases rest with
      | nil => exact nomatch h
      | cons nxt rest' =>
        by_cases hp : p.ev.cmd = EvCmd.null
        · rw [seqev_rm, if_pos hp] at h; exact nomatch h
        · rw [seqev_rm, if_neg hp] at h
          obtain rfl := Option.some.inj h
          simp only [track_numtic, List.map_cons, List.sum_cons]
          omega
    | succ i' =>
      cases rest with
      | nil => exact nomatch h
      | cons nxt rest' =>
        simp only [seqev_rm] at h
        rcases hr : seqev_rm (nxt :: rest') i' with _ | ⟨l''⟩ <;> rw [hr] at h
        · exact nomatch h
        · obtain rfl := Option.some.inj h
          have hs := ih i' l'' hr
          simp only [track_numtic, List.map_cons, List.sum_cons] at hs ⊢
          omega

/-- seqev_ins keeps the end-of-track sentinel last. -/
theorem seqev_ins_wf : ∀ (l : List Seqev) (i : Nat) (se : Seqev) (l' : List Seqev),
    seqev_ins l i se = some l' → track_wf l = true → track_wf l' = true := by
  intro l
  induction l with
  | nil => intro i se l' h; exact nomatch h
  | cons p rest ih =>
    intro i se l' h hwf
    cases i with
    | zero =>
      obtain rfl := Option.some.inj h
      cases rest with
      | nil => simpa [track_wf] using hwf
      | cons q rest' => simpa [track_wf] using hwf
    | succ i' =>
      simp only [seqev_ins] at h
      rcases hr : seqev_ins rest i' se with _ | ⟨l''⟩ <;> rw [hr] at h
      · exact nomatch h
      · obtain rfl := Option.some.inj h
        cases rest with
        | nil => exact nomatch hr
        | cons q rest' =>
          have hw' := ih i' se l'' hr (by simpa [track_wf] using hwf)
          rcases hl'' : l'' with _ | ⟨x, xs⟩
          · exact absurd hl'' (seqev_ins_ne_nil _ _ _ _ hr)
          · rw [hl''] at hw'; simpa [track_wf] using hw'

/-- seqev_rm keeps the end-of-track sentinel last. -/
theorem seqev_rm_wf : ∀ (l : List Seqev) (i : Nat) (l' : List Seqev),
    seqev_rm l i = some l' → track_wf l = true → track_wf l' = true := by
  intro l
  induction l with
  | nil => intro i l' h; exact nomatch h
  | cons p rest ih =>
    intro i l' h hwf
    cases i with
    | zero =>
      cases rest with
      | nil => exact nomatch h
      | cons nxt rest' =>
        by_cases hp : p.ev.cmd = EvCmd.null
        · rw [seqev_rm, if_pos hp] at h; exact nomatch h
        · rw [seqev_rm, if_neg hp] at h
          obtain rfl := Option.some.inj h
          cases rest' with
          | nil => simpa [track_wf] using hwf
          | cons y ys => simpa [track_wf] using hwf
    | succ i' =>
      cases rest with
      | nil => exact nomatch h
      | cons nxt rest' =>
        simp only [seqev_rm] at h
        rcases hr : seqev_rm (nxt :: rest') i' with _ | ⟨l''⟩ <;> rw [hr] at h
        · exact nomatch h
        · obtain rfl := Option.some.inj h
          have hw' := ih i' l'' hr (by simpa [track_wf] using hwf)
          rcases hl'' : l'' with _ | ⟨x, xs⟩
          · exact absurd hl'' (seqev_rm_ne_nil _ _ _ hr)
          · rw [hl''] at hw'; simpa [track_wf] using hw'

/-- seqev_ins places the new event, carrying the delta of the event at
the insertion position, at that position, and the old event right
after it with a zeroed delta. -/
theorem seqev_ins_get : ∀ (l : List Seqev) (i : Nat) (se : Seqev) (l' : List Seqev),
    seqev_ins l i se = some l' → ∀ p, l[i]? = some p →
      l'[i]? = some { se with delta := p.delta } ∧
      l'[i + 1]? = some { p with delta := 0 } := by
  intro l
  induction l with
  | nil => intro i se l' h; exact nomatch h
  | cons q rest ih =>
    intro i se l' h p hp
    cases i with
    | zero =>
      obtain rfl := Option.some.inj h
      simp only [List.getElem?_cons_zero] at hp
      obtain rfl := Option.some.inj hp
      constructor <;> simp
    | succ i' =>
      simp only [seqev_ins] at h
      rcases hr : seqev_ins rest i' se with _ | ⟨l''⟩ <;> rw [hr] at h
      · exact nomatch h
      · obtain rfl := Option.some.inj h
        simp only [List.getElem?_cons_succ] at hp ⊢
        exact ih i' se l'' hr p hp

/-- seqev_rm adds the delta of the removed event to the event that
followed it, which takes over its position. -/
theorem seqev_rm_get : ∀ (l : List Seqev) (i : Nat) (l' : List Seqev),
    seqev_rm l i = some l' → ∀ p q, l[i]? = some p → l[i + 1]? = some q →
      l'[i]? = some { q with delta := q.delta + p.delta } := by
  intro l
  induction l with
  | nil => intro i l' h; exact nomatch h
  | cons x rest ih =>
    intro i l' h p q hp hq
    cases i with
    | zero =>
      cases rest with
      | nil => exact nomatch h
      | cons nxt rest' =>
        by_cases hx : x.ev.cmd = EvCmd.null
        · rw [seqev_rm, if_pos hx] at h; exact nomatch h
        · rw [seqev_rm, if_neg hx] at h
          obtain rfl := Option.some.inj h
          simp only [List.getElem?_cons_zero] at hp
          obtain rfl := Option.some.inj hp
          simp only [List.getElem?_cons_succ, List.getElem?_cons_zero] at hq
          obtain rfl := Option.some.inj hq
          simp
    | succ i' =>
      cases rest with
      | nil => exact nomatch h
      | cons nxt rest' =>
        simp only [seqev_rm] at h
        rcases hr : seqev_rm (nxt :: rest') i' with _ | ⟨l''⟩ <;> rw [hr] at h
        · exact nomatch h
        · obtain rfl := Option.some.inj h
          rw [List.getElem?_cons_succ] at hp hq ⊢
          exact ih i' l'' hr p q hp hq

/-- Claim C8: removing a non-sentinel event adds its delta to the
following event's delta; inserting before a position gives the new
event that position's delta and zeroes the old event's delta; both
operations preserve track_numtic (the sum of all deltas) and keep the
end-of-track sentinel last and reachable from first (track_wf). -/
theorem C8_track_ops :
    (∀ (l : List Seqev) (i : Nat) (l' : List Seqev), seqev_rm l i = some l' →
      track_numtic l' = track_numtic l ∧
      (track_wf l = true → track_wf l' = true) ∧
      (∀ p q, l[i]? = some p → l[i + 1]? = some q →
        l'[i]? = some { q with delta := q.delta + p.delta })) ∧
    (∀ (l : List Seqev) (i : Nat) (se : Seqev) (l' : List Seqev),
      seqev_ins l i se = some l' →
      track_numtic l' = track_numtic l ∧
      (track_wf l = true → track_wf l' = true) ∧
      (∀ p, l[i]? = some p →
        l'[i]? = some { se with delta := p.delta } ∧
        l'[i + 1]? = some { p with delta := 0 })) := by
  constructor
  · intro l i l' h
    exact ⟨seqev_rm_numtic l i l' h, seqev_rm_wf l i l' h, seqev_rm_get l i l' h⟩
  · intro l i se l' h
    exact ⟨seqev_ins_numtic l i se l' h, seqev_ins_wf l i se l' h, seqev_ins_get l i se l' h⟩

/-- Claim C8 witness: on the two-event track, removing the note-on
folds its delta into the sentinel, and inserting a program change
before the sentinel takes over the trailing silence; both keep the
total tick count at 15 and the sentinel last. -/
theorem C8_witness :
    track_numtic c8rm = track_numtic c8track ∧ track_wf c8rm = true ∧
    track_numtic c8ins = track_numtic c8track ∧ track_wf c8ins = true := by
  have hrm : seqev_rm c8track 0 = some c8rm := by decide
  have hins : seqev_ins c8track 1 c8se = some c8ins := by decide
  obtain ⟨h1, h2, _⟩ := C8_track_ops.1 c8track 0 c8rm hrm
  obtain ⟨h3, h4, _⟩ := C8_track_ops.2 c8track 1 c8se c8ins hins
  exact ⟨h1, h2 (by decide), h3, h4 (by decide)⟩

/-- Running any valid action sequence from a state satisfying the pool
invariant succeeds and preserves the invariant. -/
theorem pool_run_ok (cap : Nat) : ∀ (ops : List PoolOp) (pool : Pool) (live : List Nat),
    pool_inv cap pool live → pool_valid cap pool live ops = true →
    ∃ p' l', pool_run pool live ops = Except.ok (p', l') ∧ pool_inv cap p' l' := by
  intro ops
  induction ops with
  | nil => exact fun pool live hi _ => ⟨pool, live, rfl, hi⟩
  | cons op rest ih =>
    intro pool live hi hv
    obtain ⟨hnd, hlen⟩ := hi
    cases op with
    | new =>
      rw [pool_valid, Bool.and_eq_true] at hv
      obtain ⟨hlt, hv'⟩ := hv
      have hlt' : live.length < cap := of_decide_eq_true hlt
      cases hfp : pool.free with
      | nil => rw [hfp] at hlen; simp at hlen; omega
      | cons e fr =>
        have hpn : pool_new pool = Except.ok ({ free := fr }, e) := by
          simp [pool_new, hfp]
        simp only [hpn] at hv'
        rw [hfp] at hnd hlen
        have hnd' : (fr ++ e :: live).Nodup :=
          (List.perm_middle.nodup_iff).mpr hnd
        have hinv' : pool_inv cap { free := fr } (e :: live) := by
          refine ⟨hnd', ?_⟩
          simp only [List.length_cons] at hlen ⊢
          omega
        obtain ⟨p', l', hrun, hi'⟩ := ih { free := fr } (e :: live) hinv' hv'
        refine ⟨p', l', ?_, hi'⟩
        rw [pool_run, hpn]
        exact hrun
    | del i =>
      rw [pool_valid, Bool.and_eq_true] at hv
      obtain ⟨hmem, hv'⟩ := hv
      have hmem' : i ∈ live := of_decide_eq_true hmem
      have hfree : i ∉ pool.free := fun hif =>
        (List.disjoint_of_nodup_append hnd) hif hmem'
      have hlive : live.Nodup := (List.nodup_append.mp hnd).2.1
      have herase : i ∉ live.erase i := fun hie =>
        ((List.Nodup.mem_erase_iff hlive).mp hie).1 rfl
      have hsub : (pool.free ++ live.erase i).Nodup :=
        List.Nodup.sublist (List.Sublist.append_left (live.erase_sublist i) _) hnd
      have hinv' : pool_inv cap (pool_del pool i) (live.erase i) := by
        refine ⟨?_, ?_⟩
        · refine List.nodup_cons.mpr ⟨?_, hsub⟩
          intro hc
          rcases List.mem_append.mp hc with hc | hc
          · exact hfree hc
          · exact herase hc
        · have : (live.erase i).length = live.length - 1 :=
            List.length_erase_of_mem hmem'
          have hpos : 0 < live.length := List.length_pos_of_mem hmem'
          simp only [pool_del, List.length_cons]
          omega
      obtain ⟨p', l', hrun, hi'⟩ := ih (pool_del pool i) (live.erase i) hinv' hv'
      exact ⟨p', l', hrun, hi'⟩

/-- Claim C9: starting from a pool of capacity N, for every
interleaving of pool_new and pool_del calls in which releases name
live slots and the number of live entries never exceeds N, no
pool_new call panics and the live entries are pairwise distinct
(non-aliasing) slots; and pool_new panics exactly when the free list
is empty.  (Every prefix of a valid sequence is valid, so the
conclusion applies at every intermediate point as well.) -/
theorem C9_pool (cap : Nat) (ops : List PoolOp)
    (hv : pool_valid cap (pool_init cap) [] ops = true) :
    (∃ p' l', pool_run (pool_init cap) [] ops = Except.ok (p', l') ∧
      l'.Nodup ∧ pool_inv cap p' l') ∧
    (∀ p : Pool, pool_new p = Except.error () ↔ p.free = []) := by
  have hinit : pool_inv cap (pool_init cap) [] := by
    refine ⟨?_, ?_⟩
    · simp [pool_init, List.nodup_reverse, List.nodup_range]
    · simp [pool_init]
  obtain ⟨p', l', hrun, hnd, hlen⟩ := pool_run_ok cap ops (pool_init cap) [] hinit hv
  refine ⟨⟨p', l', hrun, (List.nodup_append.mp hnd).2.1, hnd, hlen⟩, ?_⟩
  intro p
  cases hf : p.free with
  | nil => simp [pool_new, hf]
  | cons e fr => simp [pool_new, hf]

/-- Claim C9 witness: two allocations from a two-slot pool, a release
and a third allocation; the run succeeds, the final live set has
distinct slots, and allocating from an empty free list panics. -/
theorem C9_witness :
    (pool_run (pool_init 2) [] c9ops).toOption = some c9res ∧
    c9res.2.Nodup ∧
    pool_new { free := [] } = Except.error () := by
  obtain ⟨⟨p', l', hrun, hnd, _⟩, hiff⟩ := C9_pool 2 c9ops (by decide)
  have ho : (pool_run (pool_init 2) [] c9ops).toOption = some (p', l') := by
    rw [hrun]; rfl
  have hres : c9res = (p', l') := by
    rw [c9res, ho]; rfl
  refine ⟨?_, ?_, (hiff { free := [] }).mpr rfl⟩
  · rw [ho, hres]
  · rw [hres]; exact hnd

/-- Claim C10 (amended): mux_startreq panics exactly when the transport
phase is not STOP; under the precondition it never panics, and on
return mux_reqphase is STARTWAIT while -- with no external clock or
MTC source -- mux_phase is START (the request generates an internal
MTC start whose MIDI start immediately advances STARTWAIT to START
within the call), with curpos = 0 and nextpos = MUX_START_DELAY. -/
theorem C10_startreq (s : MuxSt) (manual : Bool) :
    (s.phase ≠ MUX_STOP → mux_startreq s manual = Except.error ()) ∧
    (s.phase = MUX_STOP →
      ∃ s', mux_startreq s manual = Except.ok s' ∧
        s'.reqphase = MUX_STARTWAIT ∧ s'.manualstart = manual ∧
        (s.clksrc = none → s.mtcsrc = false →
          s'.phase = MUX_START ∧ s'.curpos = 0 ∧ s'.nextpos = MUX_START_DELAY)) := by
  constructor
  · intro hne
    simp [mux_startreq, hne]
  · intro hstop
    by_cases hsrc : s.clksrc = none ∧ s.mtcsrc = false
    · simp only [mux_startreq, mux_mtcstart, mux_mtcstop, mux_startcb, mux_chgphase,
        mux_sendstart, hstop, hsrc.1, hsrc.2, MUX_STARTWAIT, MUX_START, MUX_FIRST,
        MUX_NEXT, MUX_STOP]
      simp
    · simp only [mux_startreq, mux_chgphase, hstop]
      rw [if_neg (by simp), if_neg hsrc]
      exact ⟨_, rfl, rfl, rfl, fun hc1 hc2 => absurd ⟨hc1, hc2⟩ hsrc⟩

/-- Claim C10 counterexample: starting from the freshly opened (STOP)
transport with no sources, mux_startreq returns with phase START, not
STARTWAIT. -/
theorem C10_counterexample :
    ((mux_startreq (mux_open_st []) false).toOption.map fun s => s.phase) =
      some MUX_START ∧ MUX_START ≠ MUX_STARTWAIT := by
  exact ⟨by decide, by decide⟩

/-- Claim C10 witness: the amended statement at the freshly opened
transport. -/
theorem C10_witness :
    ((mux_startreq (mux_open_st []) false).toOption.map fun s =>
      (s.reqphase, s.phase, s.curpos, s.nextpos)) =
      some (MUX_STARTWAIT, MUX_START, 0, MUX_START_DELAY) := by
  obtain ⟨s', hok, hreq, hman, himp⟩ :=
    (C10_startreq (mux_open_st []) false).2 rfl
  obtain ⟨hph, hcur, hnext⟩ := himp rfl rfl
  rw [hok]
  simp [Except.toOption, hreq, hph, hcur, hnext]

/-- Every sendclk device other than the clock source receives its stop
byte from the sendstop device loop. -/
theorem sendstop_go_mem (clksrc : Option Nat) :
    ∀ (devs : List Mididev) (j i : Nat) (d : Mididev), devs[i]? = some d →
      d.sendclk = true → clksrc ≠ some (j + i) →
      MuxOut.stop (j + i) ∈ sendstop_go clksrc j devs := by
  intro devs
  induction devs with
  | nil => intro j i d h; exact nomatch h
  | cons d0 rest ih =>
    intro j i d h hs hc
    cases i with
    | zero =>
      simp only [List.getElem?_cons_zero] at h
      obtain rfl := Option.some.inj h
      rw [sendstop_go]
      refine List.mem_append.mpr (Or.inl ?_)
      rw [if_pos ⟨hs, by simpa using hc⟩]
      exact List.mem_singleton.mpr rfl
    | succ i' =>
      rw [List.getElem?_cons_succ] at h
      have hji : j + (i' + 1) = j + 1 + i' := by omega
      rw [hji] at hc ⊢
      rw [sendstop_go]
      exact List.mem_append.mpr (Or.inr (ih (j + 1) i' d h hs hc))

/-- Conversely, every stop byte the sendstop loop emits goes to a
sendclk device that is not the clock source. -/
theorem sendstop_go_mem_rev (clksrc : Option Nat) :
    ∀ (devs : List Mididev) (j k : Nat), MuxOut.stop k ∈ sendstop_go clksrc j devs →
      ∃ i d, devs[i]? = some d ∧ k = j + i ∧ d.sendclk = true ∧ clksrc ≠ some k := by
  intro devs
  induction devs with
  | nil => intro j k h; simp [sendstop_go] at h
  | cons d0 rest ih =>
    intro j k h
    rw [sendstop_go] at h
    rcases List.mem_append.mp h with h | h
    · by_cases hc : d0.sendclk = true ∧ clksrc ≠ some j
      · rw [if_pos hc] at h
        have hk := MuxOut.stop.inj (List.mem_singleton.mp h)
        subst hk
        exact ⟨0, d0, by simp, by omega, hc.1, hc.2⟩
      · rw [if_neg hc] at h
        exact nomatch h
    · obtain ⟨i, d, hg, hk, hsc, hcs⟩ := ih (j + 1) k h
      refine ⟨i + 1, d, by simpa using hg, by omega, hsc, hcs⟩

/-- Claim C2 (amended): while the transport runs (phase in
{START, FIRST_TIC, NEXT_TIC}), a stop request (mux_stopreq) drives the
phase to STOP, and a received MIDI stop event (mux_stopcb) drives the
phase to the requested phase mux_reqphase -- which is STOP exactly
when a stop was requested, but STARTWAIT while a start request is
pending; in either case a MIDI stop byte is emitted to exactly the
devices with sendclk set that are not the clock source. -/
theorem C2_stop (s : MuxSt) (h : MUX_START ≤ s.phase ∧ s.phase ≤ MUX_NEXT) :
    (mux_stopreq s).phase = MUX_STOP ∧
    (mux_stopreq s).reqphase = MUX_STOP ∧
    (mux_stopcb s).phase = s.reqphase ∧
    (∀ i d, s.devs[i]? = some d → d.sendclk = true → s.clksrc ≠ some i →
      MuxOut.stop i ∈ (mux_stopcb s).out ∧ MuxOut.stop i ∈ (mux_stopreq s).out) ∧
    (∀ k, MuxOut.stop k ∉ s.out → MuxOut.stop k ∈ (mux_stopcb s).out →
      ∃ d, s.devs[k]? = some d ∧ d.sendclk = true ∧ s.clksrc ≠ some k) := by
  have hlt : s.phase < MUX_STOP := by
    have h2 := h.2
    simp only [MUX_NEXT] at h2
    simp only [MUX_STOP]
    omega
  have hcb_out : (mux_stopcb s).out =
      s.out ++ (sendstop_go s.clksrc 0 s.devs ++ [MuxOut.songStop]) := by
    simp [mux_stopcb, mux_sendstop, mux_chgphase, h.1, h.2]
  have hrq_out : (mux_stopreq s).out =
      s.out ++ (sendstop_go s.clksrc 0 s.devs ++
        ([MuxOut.songStop] ++ mmc_sends mmc_stop_msg 0 s.devs)) := by
    simp [mux_stopreq, mux_stopcb, mux_sendstop, mux_chgphase, hlt, h.1, h.2]
  refine ⟨?_, ?_, ?_, ?_, ?_⟩
  · simp [mux_stopreq, mux_stopcb, mux_sendstop, mux_chgphase, hlt, h.1, h.2]
  · simp [mux_stopreq, mux_stopcb, mux_sendstop, mux_chgphase, hlt, h.1, h.2]
  · simp [mux_stopcb, mux_sendstop, mux_chgphase, h.1, h.2]
  · intro i d hg hs hc
    have hmem := sendstop_go_mem s.clksrc s.devs 0 i d hg hs (by simpa using hc)
    rw [Nat.zero_add] at hmem
    constructor
    · rw [hcb_out]
      simp [List.mem_append, hmem]
    · rw [hrq_out]
      simp [List.mem_append, hmem]
  · intro k hno hmem
    rw [hcb_out] at hmem
    rcases List.mem_append.mp hmem with hmem | hmem
    · exact absurd hmem hno
    · rcases List.mem_append.mp hmem with hmem | hmem
      · obtain ⟨i, d, hg, hk, hsc, hcs⟩ := sendstop_go_mem_rev s.clksrc s.devs 0 k hmem
        have hk' : k = i := by omega
        subst hk'
        exact ⟨d, hg, hsc, hcs⟩
      · simp at hmem

/-- Claim C2 counterexample: reachable run refuting the claim that a
received MIDI stop always drives the phase to STOP -- after a start
request (reqphase STARTWAIT) and two ticks the transport is in
NEXT_TIC, and mux_stopcb then lands in STARTWAIT, not STOP. -/
theorem C2_counterexample :
    (((mux_startreq (mux_open_st []) false).bind fun s =>
        mux_run s [8000000, 500000]).toOption.map fun s =>
        (s.phase, (mux_stopcb s).phase)) = some (MUX_NEXT, MUX_STARTWAIT) ∧
    MUX_STARTWAIT ≠ MUX_STOP := by
  exact ⟨by decide, by decide⟩

/-- Claim C2 witness: the amended statement at a reachable NEXT_TIC
state with one sendclk device -- the stop request stops the transport
and the device at index 0 receives the stop byte on both paths. -/
theorem C2_witness :
    (mux_stopreq c2st).phase = MUX_STOP ∧
    (mux_stopreq c2st).reqphase = MUX_STOP ∧
    (mux_stopcb c2st).phase = c2st.reqphase ∧
    MuxOut.stop 0 ∈ (mux_stopcb c2st).out ∧
    MuxOut.stop 0 ∈ (mux_stopreq c2st).out := by
  obtain ⟨h1, h2, h3, h4, _⟩ := C2_stop c2st (by decide)
  obtain ⟨h5, h6⟩ := h4 0 (c2st.devs.getD 0 c2dev) (by decide) (by decide) (by decide)
  exact ⟨h1, h2, h3, h5, h6⟩

theorem songFree_filterMap {l : List MuxOut} (h : ∀ o ∈ l, songEv o = none) :
    l.filterMap songEv = [] :=
  List.filterMap_eq_nil_iff.mpr h

theorem sens_dev_songEv (delta i : Nat) (d : Mididev) :
    ∀ o ∈ (sens_dev delta i d).2, songEv o = none := by
  intro o ho
  simp only [sens_dev] at ho
  split_ifs at ho <;>
    simp at ho <;>
    first
      | (rcases ho with rfl | rfl | rfl <;> rfl)
      | (rcases ho with rfl | rfl <;> rfl)
      | (subst ho; rfl)

theorem sens_go_songEv (delta : Nat) :
    ∀ (devs : List Mididev) (j : Nat), ∀ o ∈ (sens_go delta j devs).2, songEv o = none := by
  intro devs
  induction devs with
  | nil => intro j o ho; exact nomatch ho
  | cons d rest ih =>
    intro j o ho
    rw [sens_go] at ho
    rcases List.mem_append.mp ho with ho | ho
    · exact sens_dev_songEv delta j d o ho
    · exact ih (j + 1) o ho

theorem sendtic_go_songEv (muxrate : Nat) (clksrc : Option Nat) :
    ∀ (devs : List Mididev) (j : Nat), ∀ o ∈ (sendtic_go muxrate clksrc j devs).2,
      songEv o = none := by
  intro devs
  induction devs with
  | nil => intro j o ho; exact nomatch ho
  | cons d rest ih =>
    intro j o ho
    rw [sendtic_go] at ho
    split_ifs at ho
    · rcases List.mem_append.mp ho with ho | ho
      · simp only [sendtic_dev] at ho
        split_ifs at ho
        · exact nomatch ho
        · have := List.eq_of_mem_replicate ho
          subst this
          rfl
      · exact ih (j + 1) o ho
    · exact ih (j + 1) o ho

theorem sendstart_go_songEv (clksrc : Option Nat) :
    ∀ (devs : List Mididev) (j : Nat), ∀ o ∈ (sendstart_go clksrc j devs).2,
      songEv o = none := by
  intro devs
  induction devs with
  | nil => intro j o ho; exact nomatch ho
  | cons d rest ih =>
    intro j o ho
    rw [sendstart_go] at ho
    split_ifs at ho
    · simp only [List.mem_cons] at ho
      rcases ho with rfl | rfl | ho
      · rfl
      · rfl
      · exact ih (j + 1) o ho
    · exact ih (j + 1) o ho

theorem mmc_sends_songEv (msg : List Nat) :
    ∀ (devs : List Mididev) (j : Nat), ∀ o ∈ mmc_sends msg j devs, songEv o = none := by
  intro devs
  induction devs with
  | nil => intro j o ho; exact nomatch ho
  | cons d rest ih =>
    intro j o ho
    rw [mmc_sends] at ho
    rcases List.mem_append.mp ho with ho | ho
    · split_ifs at ho
      · have := List.mem_singleton.mp ho
        subst this
        rfl
      · exact nomatch ho
    · exact ih (j + 1) o ho

theorem c1_start (devs : List Mididev) :
    ∃ s1, mux_startreq (mux_open_st devs) false = Except.ok s1 ∧
      s1.phaseLog = [MUX_STARTWAIT, MUX_START] ∧ ∀ d, c1inv d 0 s1 := by
  simp only [mux_startreq, mux_open_st, mux_mtcstart, mux_mtcstop, mux_startcb,
    mux_chgphase, mux_sendstart, MUX_STARTWAIT, MUX_START, MUX_FIRST, MUX_NEXT, MUX_STOP]
  norm_num
  intro d
  refine ⟨rfl, rfl, rfl, rfl, by simp, ?_⟩
  rw [if_pos (by simp : 0 * d < 8000000)]
  refine ⟨rfl, by simp, rfl, ?_⟩
  show tickStamps _ = []
  simp only [tickStamps, List.filterMap_append]
  rw [songFree_filterMap (sendstart_go_songEv _ _ _), songFree_filterMap (mmc_sends_songEv _ _ _)]
  rfl

theorem c1_exact (d m B : Nat) (hd : 0 < d) (hD : d ∣ B)
    (h1 : m * d < B) (h2 : B ≤ m * d + d) : m * d + d = B := by
  obtain ⟨K, hK⟩ := hD
  have hmd : d * m < d * K := by
    rw [Nat.mul_comm d m, ← hK]
    exact h1
  have hm : m < K := Nat.lt_of_mul_lt_mul_left hmd
  have hle : d * (m + 1) ≤ d * K := Nat.mul_le_mul_left d hm
  have hr : m * d + d = d * (m + 1) := by ring
  rw [hr, hK] at h2 ⊢
  omega

theorem c1_dvd_mod (d T : Nat) (hT : d ∣ T) (hL : d ∣ 500000) : d ∣ T % 500000 := by
  have hdvd : d ∣ 500000 * (T / 500000) := Dvd.dvd.mul_right hL _
  have hq : T % 500000 = T - 500000 * (T / 500000) := by omega
  rw [hq]
  exact Nat.dvd_sub' hT hdvd

theorem c1_rstep (d r : Nat) (hd : 0 < d) (hr : d ∣ r) (hL : d ∣ 500000)
    (h1 : r < 500000) (h2 : 500000 ≤ r + d) : r + d = 500000 := by
  have hdvd : d ∣ (500000 - r) := Nat.dvd_sub' hL hr
  have hpos : 0 < 500000 - r := by omega
  have hge : d ≤ 500000 - r := Nat.le_of_dvd hpos hdvd
  omega

theorem mux_ticcb_none (s : MuxSt) (h : s.clksrc = none) :
    mux_ticcb s = mux_ticcb_body s := by
  simp [mux_ticcb, h]

theorem ticcb_body_start (s : MuxSt) (hph : s.phase = MUX_START) :
    ∃ devs' touts, (∀ o ∈ touts, songEv o = none) ∧
      mux_ticcb_body s = { s with
          phase := MUX_FIRST,
          curpos := 0,
          nextpos := s.ticlength,
          curtic := 0,
          devs := devs',
          out := (s.out ++ touts) ++ [MuxOut.songStart s.wallclock],
          phaseLog := s.phaseLog ++ [MUX_FIRST] } := by
  refine ⟨(sendtic_go s.ticrate s.clksrc 0 s.devs).1,
    (sendtic_go s.ticrate s.clksrc 0 s.devs).2,
    sendtic_go_songEv s.ticrate s.clksrc s.devs 0, ?_⟩
  simp only [mux_ticcb_body, mux_chgphase, mux_sendtic]
  norm_num [hph, MUX_START, MUX_FIRST, MUX_NEXT]

theorem ticcb_body_next (s : MuxSt) (hph : s.phase = MUX_FIRST ∨ s.phase = MUX_NEXT) :
    ∃ devs' touts plog, (∀ o ∈ touts, songEv o = none) ∧
      mux_ticcb_body s = { s with
          phase := MUX_NEXT,
          curtic := (s.curtic + 1) % M32,
          devs := devs',
          out := (s.out ++ touts) ++ [MuxOut.songMove s.wallclock],
          phaseLog := plog } := by
  rcases hph with hph | hph
  · refine ⟨(sendtic_go s.ticrate s.clksrc 0 s.devs).1,
      (sendtic_go s.ticrate s.clksrc 0 s.devs).2,
      s.phaseLog ++ [MUX_NEXT],
      sendtic_go_songEv s.ticrate s.clksrc s.devs 0, ?_⟩
    simp only [mux_ticcb_body, mux_chgphase, mux_sendtic]
    norm_num [hph, MUX_START, MUX_FIRST, MUX_NEXT]
  · refine ⟨(sendtic_go s.ticrate s.clksrc 0 s.devs).1,
      (sendtic_go s.ticrate s.clksrc 0 s.devs).2,
      s.phaseLog,
      sendtic_go_songEv s.ticrate s.clksrc s.devs 0, ?_⟩
    simp only [mux_ticcb_body, mux_chgphase, mux_sendtic]
    norm_num [hph, MUX_START, MUX_FIRST, MUX_NEXT]

theorem c1_step (d m : Nat) (hd : 0 < d) (hD : d ∣ 8000000) (hL : d ∣ 500000)
    (hbound : m * d + d < M64) (s : MuxSt) (hinv : c1inv d m s) :
    ∃ s', mux_timercb s d = Except.ok s' ∧ c1inv d (m + 1) s' := by
  obtain ⟨hclk, hmtc, hman, htl, hwc, hrest⟩ := hinv
  have hwmod : (s.wallclock + d) % M64 = m * d + d := by
    rw [hwc]; exact Nat.mod_eq_of_lt hbound
  have hsucc : (m + 1) * d = m * d + d := by ring
  simp only [mux_timercb, hclk, hmtc, hman, hwmod]
  norm_num
  by_cases hm8 : m * d < 8000000
  · -- START phase: accumulate towards MUX_START_DELAY
    rw [if_pos hm8] at hrest
    obtain ⟨hph, hcur, hnext, hts⟩ := hrest
    have hcmod : (s.curpos + d) % M64 = m * d + d := by
      rw [hcur]; exact Nat.mod_eq_of_lt hbound
    rw [hph, hcur, hnext] at *
    simp only [MUX_STARTWAIT, MUX_START, MUX_FIRST, MUX_NEXT]
    norm_num
    rw [Nat.mod_eq_of_lt hbound]
    by_cases hcross : 8000000 ≤ m * d + d
    · rw [if_pos hcross]
      rw [htl]
      have hexact : m * d + d = 8000000 := c1_exact d m 8000000 hd hD hm8 hcross
      simp only [mux_mtctick]
      norm_num [M64]
      rw [mux_mtctick_loop]
      norm_num
      rw [mux_ticcb_none _ rfl]
      obtain ⟨devs2, touts2, hfree2, hbody2⟩ :=
        ticcb_body_start (MuxSt.mk 1 s.reqphase 500000 s.ticrate 0 500000 s.curtic
          (m * d + d) false (sens_go d 0 s.devs).1 none false
          (s.out ++ (sens_go d 0 s.devs).2) s.phaseLog) rfl
      simp only [] at hbody2
      rw [hbody2]
      rw [mux_mtctick_loop]
      norm_num
      have hX : (m + 1) * d - 8000000 = 0 := by omega
      refine ⟨rfl, rfl, rfl, rfl, hsucc.symm, ?_⟩
      rw [if_neg (by omega : ¬ (m + 1) * d < 8000000), hX]
      refine ⟨by rw [if_pos (by norm_num)], by simp, rfl, ?_⟩
      show tickStamps _ = _
      simp only [tickStamps, List.filterMap_append]
      simp only [tickStamps] at hts
      rw [songFree_filterMap (sens_go_songEv d s.devs 0), songFree_filterMap hfree2, hts]
      simp [songEv, hexact]
      rfl
    · rw [if_neg hcross]
      refine ⟨_, rfl, ?_⟩
      refine ⟨rfl, rfl, rfl, htl, hsucc.symm, ?_⟩
      rw [if_pos (by omega : (m + 1) * d < 8000000)]
      refine ⟨rfl, hsucc.symm, rfl, ?_⟩
      show tickStamps _ = []
      simp only [tickStamps, List.filterMap_append]
      rw [songFree_filterMap (sens_go_songEv d s.devs 0)]
      simp only [tickStamps] at hts
      rw [hts]
      rfl
  · rw [if_neg hm8] at hrest
    obtain ⟨hph, hcur, hnext, hts⟩ := hrest
    have hd5 : d ≤ 500000 := Nat.le_of_dvd (by norm_num) hL
    have hrb : (m * d - 8000000) % 500000 < 500000 := Nat.mod_lt _ (by norm_num)
    have hphor : s.phase = MUX_FIRST ∨ s.phase = MUX_NEXT := by
      by_cases hq : m * d - 8000000 < 500000
      · rw [if_pos hq] at hph; exact Or.inl hph
      · rw [if_neg hq] at hph; exact Or.inr hph
    have hph0 : ¬ s.phase = MUX_STARTWAIT := by
      rcases hphor with h | h <;> rw [h] <;> norm_num [MUX_FIRST, MUX_NEXT, MUX_STARTWAIT]
    have hph1 : ¬ s.phase = MUX_START := by
      rcases hphor with h | h <;> rw [h] <;> norm_num [MUX_FIRST, MUX_NEXT, MUX_START]
    rw [if_neg hph0, if_neg hph1, if_pos hphor]
    rw [htl, hnext, hcur]
    have hmod : ((m * d - 8000000) % 500000 + d) % M64 = (m * d - 8000000) % 500000 + d := by
      apply Nat.mod_eq_of_lt
      simp only [M64]
      omega
    simp only [mux_mtctick]
    norm_num [hmod]
    by_cases hcr : (m * d - 8000000) % 500000 + d < 500000
    · rw [mux_mtctick_loop, if_neg (by omega : ¬ ((m * d - 8000000) % 500000 + d ≥ 500000))]
      refine ⟨rfl, rfl, rfl, rfl, hsucc.symm, ?_⟩
      rw [if_neg (by omega : ¬ (m + 1) * d < 8000000)]
      have hiff : ((m + 1) * d - 8000000 < 500000) ↔ (m * d - 8000000 < 500000) := by
        constructor <;> intro h <;> omega
      refine ⟨?_, ?_, rfl, ?_⟩
      · show s.phase = _
        rw [hph]
        exact (if_congr hiff rfl rfl).symm
      · show (m * d - 8000000) % 500000 + d = ((m + 1) * d - 8000000) % 500000
        omega
      · have hdiv : ((m + 1) * d - 8000000) / 500000 = (m * d - 8000000) / 500000 := by
          omega
        show tickStamps _ = _
        rw [hdiv]
        simp only [tickStamps, List.filterMap_append]
        rw [songFree_filterMap (sens_go_songEv d s.devs 0)]
        simp only [tickStamps] at hts
        rw [hts]
        simp
    · have hdT : d ∣ m * d - 8000000 := Nat.dvd_sub' (dvd_mul_left d m) hD
      have hdr : d ∣ (m * d - 8000000) % 500000 := c1_dvd_mod d _ hdT hL
      have hreq : (m * d - 8000000) % 500000 + d = 500000 :=
        c1_rstep d _ hd hdr hL hrb (by omega)
      rw [hreq]
      rw [mux_mtctick_loop, if_pos (le_refl 500000)]
      norm_num
      rw [mux_ticcb_none _ rfl]
      obtain ⟨devs4, touts4, plog4, hfree4, hbody4⟩ :=
        ticcb_body_next (MuxSt.mk s.phase s.reqphase 500000 s.ticrate 0 500000 s.curtic
          (m * d + d) false (sens_go d 0 s.devs).1 none false
          (s.out ++ (sens_go d 0 s.devs).2) s.phaseLog) hphor
      simp only [] at hbody4
      rw [hbody4]
      rw [mux_mtctick_loop]
      norm_num
      refine ⟨rfl, rfl, rfl, rfl, hsucc.symm, ?_⟩
      rw [if_neg (by omega : ¬ (m + 1) * d < 8000000)]
      refine ⟨?_, ?_, rfl, ?_⟩
      · show MUX_NEXT = if (m + 1) * d - 8000000 < 500000 then MUX_FIRST else MUX_NEXT
        rw [if_neg (by omega : ¬ ((m + 1) * d - 8000000 < 500000))]
      · show (0:Nat) = ((m + 1) * d - 8000000) % 500000
        omega
      · have hdiv : ((m + 1) * d - 8000000) / 500000 = (m * d - 8000000) / 500000 + 1 := by
          omega
        have hstamp : 8000000 + ((m * d - 8000000) / 500000 + 1) * 500000 = m * d + d := by
          omega
        show tickStamps _ = _
        rw [hdiv]
        simp only [tickStamps, List.filterMap_append]
        rw [songFree_filterMap (sens_go_songEv d s.devs 0), songFree_filterMap hfree4]
        simp only [tickStamps] at hts
        rw [hts]
        rw [List.range_succ, List.map_append]
        simp [songEv, hstamp]
        rw [List.range_succ, List.map_append, List.range_succ, List.map_append]
        simp [hstamp]

theorem c1_run (d : Nat) (hd : 0 < d) (hD : d ∣ 8000000) (hL : d ∣ 500000) :
    ∀ k m s, m * d + k * d < M64 → c1inv d m s →
      ∃ s', mux_run s (List.replicate k d) = Except.ok s' ∧ c1inv d (m + k) s'
  | 0, m, s, _, hinv => ⟨s, rfl, hinv⟩
  | k + 1, m, s, hb, hinv => by
    have hk1 : (k + 1) * d = k * d + d := by ring
    have hm1 : (m + 1) * d = m * d + d := by ring
    obtain ⟨s1, hstep, hinv1⟩ :=
      c1_step d m hd hD hL (by omega) s hinv
    obtain ⟨s', hrun, hinv'⟩ :=
      c1_run d hd hD hL k (m + 1) s1 (by omega) hinv1
    refine ⟨s', ?_, ?_⟩
    · simp only [List.replicate, mux_run, hstep]
      exact hrun
    · have hacc : m + (k + 1) = m + 1 + k := by omega
      rw [hacc]
      exact hinv'

/-- Claim C1 (amended: for a non-waiting start request, tr_wait = 0):
with no external clock source and no MTC source, after mux_startreq the
transport phase goes STARTWAIT then START, and over any sequence of
timer callbacks whose deltas d divide both MUX_START_DELAY = 8000000 and
the default ticlength 500000, the ticks fire exactly at accumulated
deltas 8000000, 8500000, 9000000, ...: after total accumulated delta
n * d the emitted tick stamps are 8000000 + k * 500000 for
k < c1ticks (n * d), independently of the registered devices. -/
theorem C1_tick_schedule (devs : List Mididev) (d n : Nat) (hd : 0 < d)
    (hD : d ∣ 8000000) (hL : d ∣ 500000) (hbound : n * d < M64) :
    ∃ s1 s2, mux_startreq (mux_open_st devs) false = Except.ok s1 ∧
      s1.phaseLog = [MUX_STARTWAIT, MUX_START] ∧
      mux_run s1 (List.replicate n d) = Except.ok s2 ∧
      tickStamps s2 =
        (List.range (c1ticks (n * d))).map (fun k => 8000000 + k * 500000) := by
  obtain ⟨s1, hreq, hlog, hinv⟩ := c1_start devs
  obtain ⟨s2, hrun, hinv2⟩ :=
    c1_run d hd hD hL n 0 s1 (by simpa using hbound) (hinv d)
  refine ⟨s1, s2, hreq, hlog, hrun, ?_⟩
  have h0 : 0 + n = n := by omega
  rw [h0] at hinv2
  obtain ⟨_, _, _, _, _, hrest⟩ := hinv2
  by_cases hn : n * d < 8000000
  · rw [if_pos hn] at hrest
    rw [hrest.2.2.2]
    simp [c1ticks, hn]
  · rw [if_neg hn] at hrest
    rw [hrest.2.2.2]
    simp only [c1ticks, if_neg hn]

/-- A start request with tr_wait = 1 (waiting for an external MIDI start)
leaves the internal timer idle: even after 8500000 units of accumulated
delta no tick has fired, against the claim that the first tick follows
8000000 units after any start request. -/
theorem C1_counterexample :
    ((mux_startreq (mux_open_st []) true).bind
        (fun s => mux_run s [8000000, 500000])).toOption.map tickStamps = some [] ∧
      some [(8000000 : Nat)] ≠ some ([] : List Nat) :=
  ⟨by rfl, by decide⟩

theorem C1_witness :
    ∃ s1 s2, mux_startreq (mux_open_st []) false = Except.ok s1 ∧
      s1.phaseLog = [MUX_STARTWAIT, MUX_START] ∧
      mux_run s1 (List.replicate 20 500000) = Except.ok s2 ∧
      tickStamps s2 =
        (List.range (c1ticks (20 * 500000))).map (fun k => 8000000 + k * 500000) :=
  C1_tick_schedule [] 500000 20 (by norm_num) (by norm_num) (by norm_num)
    (by norm_num [M64])

end Midish
